import Mathlib

/-!
Verification development for the rusty-git object database.

This file gives a shallow embedding of the Rust sources of the repository
(`src/object.rs`, `src/object/database/packed/{index,pack,delta}.rs`,
`src/object/database/packed.rs`, `src/object/database/loose.rs`,
`src/object/commit.rs`, `src/repository.rs`) and proves or refutes the
frozen specification claims against it.

Conventions:
* bytes are modelled as `Nat` values (`< 256` where the source guarantees
  `u8`); machine-integer overflow is made explicit with `% 2^64` where the
  source works on `u64`/`usize` in release mode;
* fallible Rust functions become `Except`-valued Lean functions;
* a Rust panic (out-of-bounds slice index, `copy_from_slice` length
  mismatch, `todo!()`) is modelled as a distinguished error constructor,
  documented at its definition;
* iteration is by structural recursion on the consumed input or on an
  explicit fuel that is large enough on every path exercised.
-/

namespace RustyGit

/-- Byte strings are lists of naturals. -/
abbrev Bytes := List Nat

/-- Lexicographic comparison of byte slices, the semantics of Rust's
`Ord for [u8]` (`<[u8]>::cmp`): compare element-wise, a strict prefix is
`Less`. Used by `ShortId::cmp_id` in `src/object.rs`. -/
def byteListCmp : Bytes → Bytes → Ordering
  | [], [] => Ordering.eq
  | [], _ :: _ => Ordering.lt
  | _ :: _, [] => Ordering.gt
  | a :: as_, b :: bs =>
    if a < b then Ordering.lt
    else if b < a then Ordering.gt
    else byteListCmp as_ bs

/-- The constant `ID_LEN` from `src/object.rs`. -/
def ID_LEN : Nat := 20

/-- The constant `ID_HEX_LEN` from `src/object.rs`. -/
def ID_HEX_LEN : Nat := 40

/-- The constant `SHORT_ID_MIN_HEX_LEN` from `src/object.rs`. -/
def SHORT_ID_MIN_HEX_LEN : Nat := 4

/-- The type `Id` from `src/object.rs`: a 20-byte object identifier
(`[u8; ID_LEN]`).  The fixed length is carried as a side condition where
theorems need it. -/
structure Id where
  bytes : Bytes
  deriving DecidableEq

/-- The type `ShortId` from `src/object.rs`: a 20-byte buffer together
with the number of significant leading bytes. -/
structure ShortId where
  id : Bytes
  len : Nat
  deriving DecidableEq

/-- Method `ShortId::as_bytes`: the significant prefix `&self.id[..len]`. -/
def ShortId.as_bytes (s : ShortId) : Bytes := s.id.take s.len

/-- Method `ShortId::first_byte`: `self.id[0]` (the buffer is always 20
bytes long in the source, so index 0 exists; `headD` with default 0 agrees
on every well-formed value). -/
def ShortId.first_byte (s : ShortId) : Nat := s.id.headD 0

/-- Method `ShortId::cmp_id` from `src/object.rs`:
`self.as_bytes().cmp(id.as_bytes())`, byte-slice lexicographic order.
Per its source doc comment, partial ids sort just before ids they are a
prefix of. -/
def ShortId.cmp_id (s : ShortId) (id : Id) : Ordering :=
  byteListCmp s.as_bytes id.bytes

/-- Method `Id::cmp_short` from `src/object.rs`:
`short_id.cmp_id(self).reverse()`. -/
def Id.cmp_short (id : Id) (s : ShortId) : Ordering :=
  (s.cmp_id id).swap

/-- Method `Id::starts_with` from `src/object.rs`:
`self.0.starts_with(short_id.as_bytes())`. -/
def Id.starts_with (id : Id) (s : ShortId) : Bool :=
  s.as_bytes.isPrefixOf id.bytes

/-- Error type of the `hex` crate (`hex::FromHexError`), as consumed by
`ShortId::from_hex` via `hex::decode_to_slice`. -/
inductive FromHexError where
  | invalidHexCharacter
  | oddLength
  | invalidStringLength
  deriving DecidableEq

/-- The error type `ParseIdError` from `src/object.rs`. -/
inductive ParseIdError where
  | tooShort
  | tooLong
  | hex (e : FromHexError)
  deriving DecidableEq

/-- Value of one hex digit (the `val` helper of the `hex` crate): digits,
lowercase and uppercase letters are accepted. -/
def hexDigitVal (c : Nat) : Option Nat :=
  if 48 ≤ c ∧ c ≤ 57 then some (c - 48)
  else if 97 ≤ c ∧ c ≤ 102 then some (c - 97 + 10)
  else if 65 ≤ c ∧ c ≤ 70 then some (c - 65 + 10)
  else none

/-- Decode a list of hex character codes two at a time into bytes
(the loop of `hex::decode_to_slice` once its length checks have passed). -/
def hexDecodePairs : Bytes → Except FromHexError Bytes
  | [] => Except.ok []
  | [_] => Except.error FromHexError.oddLength
  | hi :: lo :: rest => do
    let h ← match hexDigitVal hi with
      | some v => Except.ok v
      | none => Except.error FromHexError.invalidHexCharacter
    let l ← match hexDigitVal lo with
      | some v => Except.ok v
      | none => Except.error FromHexError.invalidHexCharacter
    let tail ← hexDecodePairs rest
    Except.ok ((h * 16 + l) :: tail)

/-- Function `hex::decode_to_slice(data, out)` of the `hex` crate, with
`outLen = out.len()`: rejects odd input length first, then an input that
does not fill the output exactly, then decodes pair-wise. -/
def decode_to_slice (data : Bytes) (outLen : Nat) : Except FromHexError Bytes :=
  if data.length % 2 ≠ 0 then Except.error FromHexError.oddLength
  else if data.length / 2 ≠ outLen then Except.error FromHexError.invalidStringLength
  else hexDecodePairs data

/-- Method `ShortId::from_hex` from `src/object.rs`: length bounds, then
`hex::decode_to_slice(hex, &mut id[..len])` with `len = hex.len() / 2`
into a zero-initialised 20-byte buffer. -/
def ShortId.from_hex (hex : Bytes) : Except ParseIdError ShortId :=
  if hex.length < SHORT_ID_MIN_HEX_LEN then Except.error ParseIdError.tooShort
  else if hex.length > ID_HEX_LEN then Except.error ParseIdError.tooLong
  else
    let len := hex.length / 2
    match decode_to_slice hex len with
    | Except.error e => Except.error (ParseIdError.hex e)
    | Except.ok decoded =>
      Except.ok { id := decoded ++ List.replicate (ID_LEN - len) 0, len := len }

/-! ## Pack index (`src/object/database/packed/index.rs`)

The index file is parsed through the byte-buffer `Parser` of
`src/object/parser.rs` (`buffer: Vec<u8>`, `pos: usize`). -/

/-- The byte-buffer parser of `src/object/parser.rs` (fields `buffer` and
`pos`; the `reader` is `()` for `Parser::from_bytes`). -/
structure Parser where
  buffer : Bytes
  pos : Nat
  deriving DecidableEq

/-- Constructor `Parser::from_bytes` / `Parser::new(bytes)`. -/
def Parser.new (bytes : Bytes) : Parser := { buffer := bytes, pos := 0 }

/-- Method `Parser::remaining_buffer`: `&self.buffer[self.pos..]`. -/
def Parser.remaining_buffer (p : Parser) : Bytes := p.buffer.drop p.pos

/-- Method `Parser::remaining`: length of the remaining buffer. -/
def Parser.remaining (p : Parser) : Nat := p.buffer.length - p.pos

/-- Big-endian u32 read of the first four bytes of a list
(`NetworkEndian::read_u32`).  Callers guarantee at least four bytes; a
shorter list reads missing bytes as zero, a case no caller reaches. -/
def readU32BE (l : Bytes) : Nat :=
  l.getD 0 0 * 16777216 + l.getD 1 0 * 65536 + l.getD 2 0 * 256 + l.getD 3 0

/-- Big-endian u64 read of the first eight bytes of a list
(`NetworkEndian::read_u64`), same convention as `readU32BE`. -/
def readU64BE (l : Bytes) : Nat :=
  readU32BE l * 4294967296 + readU32BE (l.drop 4)

/-- Method `Parser::consume_u32`: consume four bytes if they equal the
expected network-endian value. -/
def Parser.consume_u32 (p : Parser) (value : Nat) : Bool × Parser :=
  if p.remaining < 4 ∨ readU32BE p.remaining_buffer ≠ value then (false, p)
  else (true, { p with pos := p.pos + 4 })

/-- Method `Parser::parse_u32`: consume four bytes as a network-endian
u32, or fail with `UnexpectedEof`. -/
def Parser.parse_u32 (p : Parser) : Option (Nat × Parser) :=
  if p.remaining < 4 then none
  else some (readU32BE p.remaining_buffer, { p with pos := p.pos + 4 })

namespace Idx

/-- The version enum of `src/object/database/packed/index.rs`. -/
inductive Version where
  | v1
  | v2
  deriving DecidableEq

/-- The error enum `ReadIndexFileError` of `index.rs`; the `&'static str`
payload of `Other` is dropped (claims do not inspect it). -/
inductive ReadIndexFileError where
  | unknownVersion (v : Nat)
  | other
  | io
  deriving DecidableEq

/-- The error enum `FindIndexOffsetError` of `index.rs`.  `readIndexFile`
stands for `ReadIndexFile(ReadIndexFileError::Other(_))`; `panicked`
models a Rust out-of-bounds slice index (unreachable on well-formed parsed
files). -/
inductive FindIndexOffsetError where
  | notFound
  | ambiguous
  | readIndexFile
  | panicked
  deriving DecidableEq

/-- The struct `IndexFile` of `index.rs`: `parse` keeps the whole file
(`parser.into_inner()`) and re-derives every region from it. -/
structure IndexFile where
  data : Bytes
  version : Version
  count : Nat
  deriving DecidableEq

/-- Entry length per version (`Version::entry_len`):
V1 records are `(u32 offset, 20-byte id)`, V2 records are a bare id. -/
def Version.entry_len : Version → Nat
  | Version.v1 => 24
  | Version.v2 => 20

/-- The fan-out reading loop of `IndexFile::parse`: 256 network-endian
u32 values that must be monotone non-decreasing; returns the final value
(the entry count). -/
def fanoutLoop : Nat → Parser → Nat → Except ReadIndexFileError (Parser × Nat)
  | 0, p, count => Except.ok (p, count)
  | n + 1, p, count =>
    match p.parse_u32 with
    | none => Except.error ReadIndexFileError.other
    | some (v, p') =>
      if v < count then Except.error ReadIndexFileError.other
      else fanoutLoop n p' v

/-- The magic constant `IndexFile::SIGNATURE`. -/
def SIGNATURE : Nat := 0xff744f63

/-- Function `IndexFile::parse` of `index.rs`: version detection by magic,
fan-out monotonicity, and the min/max file-length check.  The
`checked_mul`/`checked_add` overflow failures of the source cannot occur
over `Nat` and are omitted. -/
def IndexFile.parse (bytes : Bytes) : Except ReadIndexFileError IndexFile :=
  let p := Parser.new bytes
  let (isV2, p) := p.consume_u32 SIGNATURE
  match
    (if isV2 then
      match p.parse_u32 with
      | none => Except.error ReadIndexFileError.other
      | some (v, p') =>
        if v = 2 then Except.ok (Version.v2, p')
        else Except.error (ReadIndexFileError.unknownVersion v)
     else Except.ok (Version.v1, p)) with
  | Except.error e => Except.error e
  | Except.ok (version, p) =>
    match fanoutLoop 256 p 0 with
    | Except.error e => Except.error e
    | Except.ok (p, count) =>
      let min_size :=
        count * version.entry_len + 40 +
          (match version with | Version.v1 => 0 | Version.v2 => count * 8)
      let max_size :=
        match version with
        | Version.v1 => min_size
        | Version.v2 => min_size + (count - 1) * 8
      if p.remaining < min_size ∨ p.remaining > max_size then
        Except.error ReadIndexFileError.other
      else Except.ok { data := bytes, version := version, count := count }

/-- Method `IndexFile::data`: the whole file for V1, the file minus the
8-byte header for V2. -/
def IndexFile.dataF (idx : IndexFile) : Bytes :=
  match idx.version with
  | Version.v1 => idx.data
  | Version.v2 => idx.data.drop 8

/-- Method `IndexFile::level_one`, read at index `i`: the `i`-th
network-endian u32 of `data()[..1024]`. -/
def IndexFile.level_one (idx : IndexFile) (i : Nat) : Nat :=
  readU32BE ((idx.dataF.take 1024).drop (4 * i))

/-- Method `IndexFile::entries`: `data()[1024..][..count * entry_len]`. -/
def IndexFile.entriesBytes (idx : IndexFile) : Bytes :=
  (idx.dataF.drop 1024).take (idx.count * idx.version.entry_len)

/-- Split the V1 entry region into `(offset, id)` records
(`LayoutVerified<_, [EntryV1]>`). -/
def chunksV1 : Nat → Bytes → List (Nat × Id)
  | 0, _ => []
  | n + 1, l => (readU32BE l, Id.mk ((l.drop 4).take 20)) :: chunksV1 n (l.drop 24)

/-- Split the V2 entry region into id records
(`LayoutVerified<_, [EntryV2]>`). -/
def chunksV2 : Nat → Bytes → List Id
  | 0, _ => []
  | n + 1, l => Id.mk (l.take 20) :: chunksV2 n (l.drop 20)

/-- Rust `slice.get(start..end)` semantics: `none` unless
`start ≤ end ∧ end ≤ len`. -/
def sliceGetRange {α : Type} (l : List α) (start end_ : Nat) : Option (List α) :=
  if start ≤ end_ ∧ end_ ≤ l.length then some ((l.drop start).take (end_ - start))
  else none

/-- The inner loop of Rust's `slice::binary_search_by`
(`while size > 1 { half = size / 2; mid = base + half;
base = if f(mid) == Greater { base } else { mid }; size -= half }`).
`fuel` only needs to exceed the iteration count; `size` at least halves
each round, so `fuel = n` suffices for a slice of length `n`. -/
def bsLoop (f : Nat → Ordering) : Nat → Nat → Nat → Nat
  | 0, base, _ => base
  | fuel + 1, base, size =>
    if size ≤ 1 then base
    else
      let half := size / 2
      let mid := base + half
      bsLoop f fuel (if f mid = Ordering.gt then base else mid) (size - half)

/-- Rust `slice::binary_search_by` on a slice of length `n` with
comparator `f` (by index): `Ok(base)` on an exact hit, otherwise
`Err(insertion_point)`. -/
def binarySearchBy (f : Nat → Ordering) (n : Nat) : Except Nat Nat :=
  if n = 0 then Except.error 0
  else
    let base := bsLoop f n 0 n
    match f base with
    | Ordering.eq => Except.ok base
    | Ordering.lt => Except.error (base + 1)
    | Ordering.gt => Except.error base

/-- The nested `binary_search` helper of `IndexFile::find_offset`:
binary-search by `entry.id().cmp_short(short_id)`; on a miss, scan the
entries from the insertion point that start with the short id — none is
`NotFound`, exactly one is a hit, two is `Ambiguous`. -/
def binary_search {α : Type} (dflt : α) (idOf : α → Id) (entries : List α)
    (s : ShortId) : Except FindIndexOffsetError (Nat × α) :=
  match binarySearchBy (fun i => (idOf (entries.getD i dflt)).cmp_short s) entries.length with
  | Except.ok i => Except.ok (i, entries.getD i dflt)
  | Except.error i =>
    match (entries.drop i).takeWhile (fun e => (idOf e).starts_with s) with
    | [] => Except.error FindIndexOffsetError.notFound
    | [e] => Except.ok (i, e)
    | _ :: _ :: _ => Except.error FindIndexOffsetError.ambiguous

/-- Split a byte region into network-endian u32 values
(`LayoutVerified<_, [U32<NetworkEndian>]>`). -/
def u32Chunks : Bytes → List Nat
  | a :: b :: c :: d :: rest => readU32BE [a, b, c, d] :: u32Chunks rest
  | _ => []

/-- Split a byte region into network-endian u64 values
(`LayoutVerified<_, [U64<NetworkEndian>]>`). -/
def u64Chunks : Bytes → List Nat
  | a :: b :: c :: d :: e :: f :: g :: h :: rest =>
    readU64BE [a, b, c, d, e, f, g, h] :: u64Chunks rest
  | _ => []

/-- Method `IndexFile::offsets` of `index.rs` (V2 only): small offsets are
the `count` u32 values after the entry and CRC tables, large offsets fill
the remainder up to the 40-byte trailer; both regions are relative to
`data()[1024..]`. -/
def IndexFile.offsets (idx : IndexFile) : List Nat × List Nat :=
  let d := idx.dataF.drop 1024
  let start := idx.count * 24
  let mid := start + idx.count * 4
  let end_ := d.length - 40
  (u32Chunks ((d.drop start).take (mid - start)),
   u64Chunks ((d.drop mid).take (end_ - mid)))

/-- Method `IndexFile::find_offset` of `index.rs`: fan-out bucket, binary
search with the prefix comparator, then the per-version offset read (V2
small offsets with the top bit set index the large-offset table). -/
def IndexFile.find_offset (idx : IndexFile) (s : ShortId) :
    Except FindIndexOffsetError (Nat × Id) :=
  let first := s.first_byte
  let index_end := idx.level_one first
  let index_start := if first = 0 then 0 else idx.level_one (first - 1)
  match idx.version with
  | Version.v1 =>
    match sliceGetRange (chunksV1 idx.count idx.entriesBytes) index_start index_end with
    | none => Except.error FindIndexOffsetError.readIndexFile
    | some es =>
      match binary_search (0, Id.mk []) (fun e => e.2) es s with
      | Except.error e => Except.error e
      | Except.ok (_, e) => Except.ok (e.1, e.2)
  | Version.v2 =>
    match sliceGetRange (chunksV2 idx.count idx.entriesBytes) index_start index_end with
    | none => Except.error FindIndexOffsetError.readIndexFile
    | some es =>
      match binary_search (Id.mk []) (fun e => e) es s with
      | Except.error e => Except.error e
      | Except.ok (i, e) =>
        let (small, large) := idx.offsets
        match small.get? (index_start + i) with
        | none => Except.error FindIndexOffsetError.panicked
        | some so =>
          if so &&& 0x80000000 = 0 then Except.ok (so, e)
          else
            match large.get? (so &&& 0x7fffffff) with
            | none => Except.error FindIndexOffsetError.readIndexFile
            | some lo => Except.ok (lo, e)

end Idx

/-! ## Synthetic index fixtures (the `parse_v1` / `parse_v2` tests of
`index.rs`), byte for byte. -/

/-- Full id `2057bab324290cc76e3669cd24ff7345e907fd13` as raw bytes. -/
def id2057Bytes : Bytes :=
  [32, 87, 186, 179, 36, 41, 12, 199, 110, 54, 105, 205, 36, 255, 115, 69, 233, 7, 253, 19]

/-- Full id `4046b3b7c67ec0dedab9c5952d630b241eebf820` as raw bytes. -/
def id4046b3Bytes : Bytes :=
  [64, 70, 179, 183, 198, 126, 192, 222, 218, 185, 197, 149, 45, 99, 11, 36, 30, 235, 248, 32]

/-- Full id `4046d56282d07200068541199583f49c65f707f7` as raw bytes. -/
def id4046d5Bytes : Bytes :=
  [64, 70, 213, 98, 130, 208, 114, 0, 6, 133, 65, 25, 149, 131, 244, 156, 101, 247, 7, 247]

/-- Pack trailer id `ea0e0aa8f197e86ba6d2c2203e280b26ecbadb76` as raw bytes. -/
def trailerIdBytes : Bytes :=
  [234, 14, 10, 168, 241, 151, 232, 107, 166, 210, 194, 32, 62, 40, 11, 38, 236, 186, 219, 118]

/-- The fan-out table shared by both fixtures: buckets 0–31 hold 0,
buckets 32–63 hold 1, buckets 64–255 hold 3 (big-endian u32 each). -/
def fanoutFixture : Bytes :=
  List.replicate 128 0 ++ (List.replicate 32 ([0, 0, 0, 1] : Bytes)).flatten
    ++ (List.replicate 192 ([0, 0, 0, 3] : Bytes)).flatten

/-- The V1 fixture of test `tests::parse_v1`: fan-out, three
`(offset, id)` records with offsets 0x24, 0x42, 0x61, then the 40-byte
trailer. -/
def fixtureV1 : Bytes :=
  fanoutFixture ++ [0, 0, 0, 36] ++ id2057Bytes ++ [0, 0, 0, 66] ++ id4046b3Bytes
    ++ [0, 0, 0, 97] ++ id4046d5Bytes ++ trailerIdBytes ++ List.replicate 20 0

/-- The V2 fixture of test `tests::parse_v2`: magic + version, fan-out,
three ids, three CRCs, small offsets `[0x24, 0x80000000, 0x61]` (the
second indexes the large-offset table), one large offset 0x42, trailer. -/
def fixtureV2 : Bytes :=
  [255, 116, 79, 99, 0, 0, 0, 2] ++ fanoutFixture
    ++ id2057Bytes ++ id4046b3Bytes ++ id4046d5Bytes
    ++ List.replicate 12 0
    ++ [0, 0, 0, 36, 128, 0, 0, 0, 0, 0, 0, 97]
    ++ [0, 0, 0, 0, 0, 0, 0, 66]
    ++ trailerIdBytes ++ List.replicate 20 0

/-- Hex character codes of the short id string `2057bab324290cc7`. -/
def hexS2057 : Bytes := [50, 48, 53, 55, 98, 97, 98, 51, 50, 52, 50, 57, 48, 99, 99, 55]

/-- Hex character codes of the short id string `4046`. -/
def hexS4046 : Bytes := [52, 48, 52, 54]

/-- Hex character codes of the short id string `4048`. -/
def hexS4048 : Bytes := [52, 48, 52, 56]

/-- The parsed V1 fixture (`IndexFile::parse` keeps the whole file). -/
def idxV1 : Idx.IndexFile := { data := fixtureV1, version := Idx.Version.v1, count := 3 }

/-- The parsed V2 fixture. -/
def idxV2 : Idx.IndexFile := { data := fixtureV2, version := Idx.Version.v2, count := 3 }

/-- The `ShortId` produced by `ShortId::from_hex("2057bab324290cc7")`. -/
def short2057 : ShortId :=
  { id := [32, 87, 186, 179, 36, 41, 12, 199] ++ List.replicate 12 0, len := 8 }

/-- The `ShortId` produced by `ShortId::from_hex("4046")`. -/
def short4046 : ShortId := { id := [64, 70] ++ List.replicate 18 0, len := 2 }

/-- The `ShortId` produced by `ShortId::from_hex("4048")`. -/
def short4048 : ShortId := { id := [64, 72] ++ List.replicate 18 0, len := 2 }

deriving instance DecidableEq for Except

/-! ## The pack-set facade draft (`src/object/database/packed.rs`)

This file is a parallel draft of the packed layer: it contains its own
`IndexFile` (same data layout and `find_offset` control flow as
`index.rs`, but different length validation in `open` and a different
offset-region computation in `offsets`), and `PackedObjectDatabase` whose
`try_read_object` is the subject of claim C6.  `PackFile::read_object`
is `todo!()` in this draft, so reaching it panics; the outcome type below
records the call instead. -/

namespace Pkd

/-- The error enum `Error` of the crate as used by `packed.rs`
`find_offset`/`try_read_object`: `ObjectNotFound`, `Ambiguous` (both
carrying the short id) and parse errors (payload dropped).  `panicked`
models an out-of-bounds slice index. -/
inductive Error where
  | objectNotFound (s : ShortId)
  | ambiguous (s : ShortId)
  | invalidPackIndex
  | panicked
  deriving DecidableEq

/-- Function `IndexFile::open` of `packed.rs`.  It differs from
`index.rs::IndexFile::parse` in its length bounds: `min_size` counts
`entry_size + 4` bytes per entry (plus `4` more per entry for V2). -/
def indexOpen (bytes : Bytes) : Except Idx.ReadIndexFileError Idx.IndexFile :=
  let p := Parser.new bytes
  let (isV2, p) := p.consume_u32 Idx.SIGNATURE
  match
    (if isV2 then
      match p.parse_u32 with
      | none => Except.error Idx.ReadIndexFileError.other
      | some (v, p') =>
        if v = 2 then Except.ok (Idx.Version.v2, p')
        else Except.error (Idx.ReadIndexFileError.unknownVersion v)
     else Except.ok (Idx.Version.v1, p)) with
  | Except.error e => Except.error e
  | Except.ok (version, p) =>
    match Idx.fanoutLoop 256 p 0 with
    | Except.error e => Except.error e
    | Except.ok (p, count) =>
      let min_size :=
        count * (version.entry_len + 4) + 40 +
          (match version with | Idx.Version.v1 => 0 | Idx.Version.v2 => count * 4)
      let max_size :=
        match version with
        | Idx.Version.v1 => min_size
        | Idx.Version.v2 => min_size + (count - 1) * 8
      if p.remaining < min_size ∨ p.remaining > max_size then
        Except.error Idx.ReadIndexFileError.other
      else Except.ok { data := bytes, version := version, count := count }

/-- Method `IndexFile::offsets` of `packed.rs`.  Unlike `index.rs`, the
regions are computed relative to `data()` itself (the fan-out table is
not skipped): `start = count * (ENTRY_SIZE_V2 + 4)`. -/
def offsets (idx : Idx.IndexFile) : List Nat × List Nat :=
  let d := idx.dataF
  let start := idx.count * 24
  let mid := start + idx.count * 4
  let end_ := d.length - 40
  (Idx.u32Chunks ((d.drop start).take (mid - start)),
   Idx.u64Chunks ((d.drop mid).take (end_ - mid)))

/-- Method `IndexFile::find_offset` of `packed.rs`: identical control flow
to `index.rs::IndexFile::find_offset` (same nested `binary_search`), but
with the crate `Error` type and this file's `offsets` regions. -/
def find_offset (idx : Idx.IndexFile) (s : ShortId) : Except Error (Nat × Id) :=
  let first := s.first_byte
  let index_end := idx.level_one first
  let index_start := if first = 0 then 0 else idx.level_one (first - 1)
  let mapErr : Idx.FindIndexOffsetError → Error := fun e =>
    match e with
    | Idx.FindIndexOffsetError.notFound => Error.objectNotFound s
    | Idx.FindIndexOffsetError.ambiguous => Error.ambiguous s
    | Idx.FindIndexOffsetError.readIndexFile => Error.invalidPackIndex
    | Idx.FindIndexOffsetError.panicked => Error.panicked
  match idx.version with
  | Idx.Version.v1 =>
    match Idx.sliceGetRange (Idx.chunksV1 idx.count idx.entriesBytes) index_start index_end with
    | none => Except.error Error.invalidPackIndex
    | some es =>
      match Idx.binary_search (0, Id.mk []) (fun e => e.2) es s with
      | Except.error e => Except.error (mapErr e)
      | Except.ok (_, e) => Except.ok (e.1, e.2)
  | Idx.Version.v2 =>
    match Idx.sliceGetRange (Idx.chunksV2 idx.count idx.entriesBytes) index_start index_end with
    | none => Except.error Error.invalidPackIndex
    | some es =>
      match Idx.binary_search (Id.mk []) (fun e => e) es s with
      | Except.error e => Except.error (mapErr e)
      | Except.ok (i, e) =>
        let (small, large) := offsets idx
        match small.get? (index_start + i) with
        | none => Except.error Error.panicked
        | some so =>
          if so &&& 0x80000000 = 0 then Except.ok (so, e)
          else
            match large.get? (so &&& 0x7fffffff) with
            | none => Except.error Error.invalidPackIndex
            | some lo => Except.ok (lo, e)

/-- Outcome of `PackedObjectDatabase::try_read_object`.  `readObject i o`
records that the loop returned `pack.read_object(o)` for the `i`-th pack
in iteration order (`read_object` is `todo!()` in this draft, so the call
itself panics; which pack and offset were selected is the observable the
claims speak about). -/
inductive TryReadOutcome where
  | readObject (pack : Nat) (offset : Nat)
  | err (e : Error)
  deriving DecidableEq

/-- The pack iteration loop of `try_read_object` (`for pack in
self.packs.iter()`), with `i` tracking the pack's position. -/
def tryReadLoop (s : ShortId) : List Idx.IndexFile → Nat → TryReadOutcome
  | [], _ => TryReadOutcome.err (Error.objectNotFound s)
  | pack :: rest, i =>
    match find_offset pack s with
    | Except.ok (offset, _) => TryReadOutcome.readObject i offset
    | Except.error (Error.objectNotFound _) => tryReadLoop s rest (i + 1)
    | Except.error e => TryReadOutcome.err e

/-- Method `PackedObjectDatabase::try_read_object` of `packed.rs` on a
pack set given in iteration order. -/
def try_read_object (packs : List Idx.IndexFile) (s : ShortId) : TryReadOutcome :=
  tryReadLoop s packs 0

/-- Modelled from the spec wording of the amended claim, for comparison
with `try_read_object`: consult packs in order and act on the first whose
lookup does not report `NotFound`; report `NotFound` only if every pack
does. -/
def firstNonNotFoundSpec (s : ShortId) : List Idx.IndexFile → Nat → TryReadOutcome
  | [], _ => TryReadOutcome.err (Error.objectNotFound s)
  | pack :: rest, i =>
    match find_offset pack s with
    | Except.error (Error.objectNotFound _) => firstNonNotFoundSpec s rest (i + 1)
    | Except.error e => TryReadOutcome.err e
    | Except.ok (offset, _) => TryReadOutcome.readObject i offset

end Pkd

/-! ## Object kinds and packed object headers (`src/object.rs`,
`src/object/database/packed/pack.rs`). -/

/-- The enum `ObjectKind` of `src/object.rs` (pack-internal delta kinds
included). -/
inductive ObjectKind where
  | commit
  | tree
  | blob
  | tag
  | ofsDelta
  | refDelta
  deriving DecidableEq

/-- The struct `ObjectHeader` of `src/object.rs`: kind and decompressed
body length. -/
structure ObjectHeader where
  kind : ObjectKind
  len : Nat
  deriving DecidableEq

namespace Pack

/-- The constant `ObjectHeader::MAX_DELTA_OFFSET_LEN` of `pack.rs` on a
64-bit target: `(8 * 8) / 7 + 1 = 10`. -/
def MAX_DELTA_OFFSET_LEN : Nat := 10

/-- Two to the sixty-fourth, the modulus of wrapping `u64` arithmetic. -/
def U64_MOD : Nat := 18446744073709551616

/-- The accumulation step of the `read_delta_offset` loop of `pack.rs`:
`offset <<= 7; offset += byte & 0x7f` on `u64`. -/
def deltaOffsetStep (acc b : Nat) : Nat := ((acc <<< 7) + (b &&& 127)) % U64_MOD

/-- Errors of the `read_delta_offset` path: `parse` covers
`parse::Error::UnexpectedEof` surfaced through `read_until`, `other` is
`ReadPackFileError::Other("invalid delta offset")`. -/
inductive ReadDeltaOffsetError where
  | parse
  | other
  deriving DecidableEq

/-- Function `read_delta_offset` of `pack.rs` on the bytes remaining in
the buffer: `read_until(MAX_DELTA_OFFSET_LEN, first byte with the high
bit clear)` delimits the varint, then the loop folds big-endian 7-bit
groups without any bias. -/
def read_delta_offset (stream : Bytes) : Except ReadDeltaOffsetError Nat :=
  match (stream.take MAX_DELTA_OFFSET_LEN).findIdx? (fun b => b &&& 128 == 0) with
  | some i => Except.ok ((stream.take (i + 1)).foldl deltaOffsetStep 0)
  | none =>
    if stream.length < MAX_DELTA_OFFSET_LEN then Except.error ReadDeltaOffsetError.parse
    else Except.error ReadDeltaOffsetError.other

/-- Modelled from the claim wording (and spec §4.7): the *biased*
big-endian decode `val := b0 & 0x7f`, then for each further byte
`val := ((val + 1) << 7) | (b & 0x7f)`, for comparison with
`read_delta_offset`. -/
def claimedBiasedDeltaOffset : Bytes → Nat
  | [] => 0
  | b0 :: rest => rest.foldl (fun v b => ((v + 1) <<< 7) ||| (b &&& 127)) (b0 &&& 127)

/-- The unbiased big-endian decode actually computed by the source loop,
written in the claim's style: `val := b0 & 0x7f`, then
`val := ((val << 7) + (b & 0x7f)) mod 2^64` per further byte. -/
def unbiasedDeltaOffset : Bytes → Nat
  | [] => 0
  | b0 :: rest => rest.foldl deltaOffsetStep (b0 &&& 127)

end Pack

/-! ## Delta engine (`src/object/database/packed/delta.rs`)

The delta stream arrives through a `parse::Buffer` over the decompressed
script; it is modelled as the list of not-yet-consumed bytes. -/

namespace Delta

/-- The error enum `DeltaError` of `delta.rs`.  `parse` collapses the
`Parse(parse::Error)` variant; `panicked` models the Rust panic of
`<[u8]>::copy_from_slice` when `result.len() != src.len()`
(`result` is a `BytesMut` of length zero, so any non-empty source
panics). -/
inductive DeltaError where
  | invalidHeader
  | invalidCommand
  | unsupportedCommand
  | tooLong
  | baseLengthMismatch
  | resultLengthMismatch
  | parse
  | panicked
  deriving DecidableEq

/-- The constant `DeltaError::MAX_VARINT_LEN`: `(8 * 8) / 7 + 1 = 10`. -/
def MAX_VARINT_LEN : Nat := 10

/-- The little-endian 7-bit accumulation loop of `read_delta_header_len`:
`len |= (byte & 0x7f).checked_shl(shift)?`, `shift += 7`; `checked_shl`
fails once the shift reaches 64 bits. -/
def leVarintLoop : Bytes → Nat → Nat → Option Nat
  | [], _, acc => some acc
  | b :: rest, shift, acc =>
    if 64 ≤ shift then none
    else leVarintLoop rest (shift + 7) (acc ||| ((b &&& 127) <<< shift) % Pack.U64_MOD)

/-- Function `read_delta_header_len(max)` of `delta.rs`:
`read_until(max, first byte with high bit clear)` then the little-endian
fold; a missing terminator inside `max` bytes is `InvalidHeader`, end of
stream first is a parse error. -/
def read_delta_header_len (max : Nat) (s : Bytes) : Except DeltaError (Nat × Bytes) :=
  match (s.take max).findIdx? (fun b => b &&& 128 == 0) with
  | some i =>
    match leVarintLoop (s.take (i + 1)) 0 0 with
    | none => Except.error DeltaError.invalidHeader
    | some v => Except.ok (v, s.drop (i + 1))
  | none =>
    if s.length < max then Except.error DeltaError.parse
    else Except.error DeltaError.invalidHeader

/-- The struct `DeltaHeader`: declared base and result lengths. -/
structure DeltaHeader where
  base_len : Nat
  result_len : Nat
  deriving DecidableEq

/-- Function `read_delta_header` of `delta.rs`: base length (maximum
`MAX_VARINT_LEN * 2` bytes), then result length (maximum
`MAX_VARINT_LEN`). -/
def read_delta_header (s : Bytes) : Except DeltaError (DeltaHeader × Bytes) :=
  match read_delta_header_len (MAX_VARINT_LEN * 2) s with
  | Except.error e => Except.error e
  | Except.ok (base_len, s1) =>
    match read_delta_header_len MAX_VARINT_LEN s1 with
    | Except.error e => Except.error e
    | Except.ok (result_len, s2) =>
      Except.ok ({ base_len := base_len, result_len := result_len }, s2)

/-- The enum `Command` of `delta.rs`. -/
inductive Command where
  | copyFromBase (offset len : Nat)
  | copyFromDelta (len : Nat)
  deriving DecidableEq

/-- Single conditional byte read of the copy-command decoder
(`if intersects(cmd, bit) { self.read_byte()? }`); a byte read past the
end of the stream is a parse error here. -/
def readIf (flag : Bool) (s : Bytes) : Except DeltaError (Nat × Bytes) :=
  if flag then
    match s with
    | [] => Except.error DeltaError.parse
    | b :: r => Except.ok (b, r)
  else Except.ok (0, s)

/-- Function `read_command` of `delta.rs`.  Faithful to the source
including its dispatch mask: the copy branch is taken when
`cmd & 0b1000_000 != 0` — the literal has seven digits, so the tested bit
is 0x40, not 0x80.  End of stream at the command position is the normal
end of the script (`Ok(None)`); `cmd == 0` is `UnsupportedCommand`. -/
def read_command (s : Bytes) : Except DeltaError (Option (Command × Bytes)) :=
  match s with
  | [] => Except.ok none
  | cmd :: rest =>
    if cmd &&& 64 ≠ 0 then
      match readIf (cmd &&& 1 ≠ 0) rest with
      | Except.error e => Except.error e
      | Except.ok (o0, s1) =>
      match readIf (cmd &&& 2 ≠ 0) s1 with
      | Except.error e => Except.error e
      | Except.ok (o1, s2) =>
      match readIf (cmd &&& 4 ≠ 0) s2 with
      | Except.error e => Except.error e
      | Except.ok (o2, s3) =>
      match readIf (cmd &&& 8 ≠ 0) s3 with
      | Except.error e => Except.error e
      | Except.ok (o3, s4) =>
      match readIf (cmd &&& 16 ≠ 0) s4 with
      | Except.error e => Except.error e
      | Except.ok (l0, s5) =>
      match readIf (cmd &&& 32 ≠ 0) s5 with
      | Except.error e => Except.error e
      | Except.ok (l1, s6) =>
      match readIf (cmd &&& 64 ≠ 0) s6 with
      | Except.error e => Except.error e
      | Except.ok (l2, s7) =>
        let offset := o0 + o1 * 256 + o2 * 65536 + o3 * 16777216
        let len := l0 + l1 * 256 + l2 * 65536
        let len := if len = 0 then 65536 else len
        Except.ok (some (Command.copyFromBase offset len, s7))
    else if cmd ≠ 0 then Except.ok (some (Command.copyFromDelta cmd, rest))
    else Except.error DeltaError.unsupportedCommand

/-- The command loop of `apply_delta`.  Each iteration consumes at least
the command byte, so `fuel = s.length + 1` never runs out; `result` is
the `BytesMut` that starts empty.  `result.copy_from_slice(&src)` is the
slice method, which overwrites in place and panics unless
`result.len() == src.len()`. -/
def applyLoop (base : Bytes) : Nat → Bytes → Bytes → Except DeltaError Bytes
  | 0, _, _ => Except.error DeltaError.parse
  | fuel + 1, s, result =>
    match read_command s with
    | Except.error e => Except.error e
    | Except.ok none => Except.ok result
    | Except.ok (some (cmd, s1)) =>
      match
        (match cmd with
         | Command.copyFromBase offset len =>
           if base.length < offset then Except.error DeltaError.invalidCommand
           else if (base.drop offset).length < len then Except.error DeltaError.invalidCommand
           else Except.ok ((base.drop offset).take len, s1)
         | Command.copyFromDelta len =>
           if s1.length < len then Except.error DeltaError.parse
           else Except.ok (s1.take len, s1.drop len)) with
      | Except.error e => Except.error e
      | Except.ok (src, s2) =>
        if result.length ≠ src.length then Except.error DeltaError.panicked
        else applyLoop base fuel s2 src

/-- Function `apply_delta` of `delta.rs`: read and check the header,
run the command loop starting from an empty result, then check the final
length.  The returned header carries the caller-supplied `kind` (the
delta node's own kind in `pack.rs`). -/
def apply_delta (kind : ObjectKind) (base : Bytes) (delta : Bytes) :
    Except DeltaError (ObjectHeader × Bytes) :=
  match read_delta_header delta with
  | Except.error e => Except.error e
  | Except.ok (header, s) =>
    if header.base_len ≠ base.length then Except.error DeltaError.baseLengthMismatch
    else
      match applyLoop base (s.length + 1) s [] with
      | Except.error e => Except.error e
      | Except.ok result =>
        if header.result_len ≠ result.length then Except.error DeltaError.resultLengthMismatch
        else Except.ok ({ kind := kind, len := header.result_len }, result)

/-- The delta stream of claim C3's construction for base `"a"` and result
`"ab"`: declared lengths 1 and 2, one copy command `0x90 0x01`
(copy `base[0..1]`), one insert command `0x01 'b'`. -/
def cexDeltaStream : Bytes := [1, 2, 144, 1, 1, 98]

end Delta

/-! ## Pack delta chains (`src/object/database/packed/pack.rs`)

`find_chain` and `read_object` are embedded over a decoded view of the
pack: `entryAt` yields what the byte-level header reads at an offset
would produce, `payloadAt` is `decompress_exact` at a data offset, and
`indexOf` is the companion index lookup used by `RefDelta`.  The delta
engine is a parameter `applyFn` so that the chain *order* is isolated
from the engine itself (claim C3 covers the engine).  A single call on a
freshly opened pack is modelled, so the cache (empty, and only written at
returns) is omitted. -/

namespace Pack

/-- Decoded view of one packed object, as the byte-level reads of
`find_chain` would observe it at a given offset: a concrete object with
its raw body bytes, or a delta with its backward distance / base id and
the number of bytes (`hlen`) its header and base reference occupy
(`buffer.pos()` after the reads). -/
inductive EntryView where
  | base (header : ObjectHeader) (body : Bytes)
  | ofs (header : ObjectHeader) (dist : Nat) (hlen : Nat)
  | refd (header : ObjectHeader) (rid : Id) (hlen : Nat)

/-- The struct `ChainEntry` of `pack.rs`: cache key (header offset),
data offset (after header), and header. -/
structure ChainEntry where
  key : Nat
  offset : Nat
  header : ObjectHeader
  deriving DecidableEq

/-- The decoded pack contents: entries by offset, index lookup for
`RefDelta`, and decompressed delta scripts by data offset. -/
structure PackModel where
  entryAt : Nat → Option EntryView
  indexOf : Id → Option Nat
  payloadAt : Nat → Bytes

/-- Errors of the chain walk; `fuelExhausted` stands in for the
non-termination the source allows on a cyclic chain (it guards only
against the immediate self-loop). -/
inductive ReadPackError where
  | parse
  | invalidDeltaOffset
  | findIndexOffset
  | deltaLoop
  | fuelExhausted
  deriving DecidableEq

/-- Function `PackFile::find_chain` of `pack.rs`: walk from the requested
offset, pushing a `ChainEntry` per delta node (bottom-up), until a
concrete object is found; `OfsDelta` subtracts the decoded distance
(`checked_sub`), `RefDelta` resolves through the index; a base offset
equal to the current offset is the `"loop in deltas"` error. -/
def find_chain (m : PackModel) : Nat → Nat → List ChainEntry →
    Except ReadPackError (List ChainEntry × ObjectHeader × Bytes)
  | 0, _, _ => Except.error ReadPackError.fuelExhausted
  | fuel + 1, offset, chain =>
    match m.entryAt offset with
    | none => Except.error ReadPackError.parse
    | some (EntryView.base h body) => Except.ok (chain, h, body)
    | some (EntryView.ofs h dist hlen) =>
      if offset < dist then Except.error ReadPackError.invalidDeltaOffset
      else
        let base_offset := offset - dist
        let chain := chain ++ [{ key := offset, offset := offset + hlen, header := h }]
        if base_offset = offset then Except.error ReadPackError.deltaLoop
        else find_chain m fuel base_offset chain
    | some (EntryView.refd h rid hlen) =>
      match m.indexOf rid with
      | none => Except.error ReadPackError.findIndexOffset
      | some base_offset =>
        let chain := chain ++ [{ key := offset, offset := offset + hlen, header := h }]
        if base_offset = offset then Except.error ReadPackError.deltaLoop
        else find_chain m fuel base_offset chain

/-- One application step of `PackFile::apply_delta`: run the engine on
the current base with the script at the node's data offset; the result
header carries the node's own kind and the result length. -/
def applyStep (m : PackModel) (applyFn : Bytes → Bytes → Bytes)
    (hb : ObjectHeader × Bytes) (e : ChainEntry) : ObjectHeader × Bytes :=
  let r := applyFn hb.2 (m.payloadAt e.offset)
  ({ kind := e.header.kind, len := r.length }, r)

/-- Function `PackFile::read_object` of `pack.rs`: find the chain, then
`for entry in chain { apply_delta }` — a fold over the chain in
collection order (the earliest-pushed entry first). -/
def read_object (m : PackModel) (applyFn : Bytes → Bytes → Bytes) (fuel offset : Nat) :
    Except ReadPackError (ObjectHeader × Bytes) :=
  match find_chain m fuel offset [] with
  | Except.error e => Except.error e
  | Except.ok (chain, h, base) => Except.ok (chain.foldl (applyStep m applyFn) (h, base))

/-- Modelled from the claim wording: the same chain applied in *reverse*
collection order, the earliest-pushed delta last. -/
def read_object_claimed (m : PackModel) (applyFn : Bytes → Bytes → Bytes) (fuel offset : Nat) :
    Except ReadPackError (ObjectHeader × Bytes) :=
  match find_chain m fuel offset [] with
  | Except.error e => Except.error e
  | Except.ok (chain, h, base) => Except.ok (chain.reverse.foldl (applyStep m applyFn) (h, base))

/-- Modelled from the claim wording: recursive resolution — the bytes of
an object are obtained by applying its delta to the result of resolving
its base. -/
def resolveSpec (m : PackModel) (applyFn : Bytes → Bytes → Bytes) :
    Nat → Nat → Option (ObjectHeader × Bytes)
  | 0, _ => none
  | fuel + 1, offset =>
    match m.entryAt offset with
    | none => none
    | some (EntryView.base h body) => some (h, body)
    | some (EntryView.ofs h dist hlen) =>
      (resolveSpec m applyFn fuel (offset - dist)).map fun hb =>
        let r := applyFn hb.2 (m.payloadAt (offset + hlen))
        ({ kind := h.kind, len := r.length }, r)
    | some (EntryView.refd h rid hlen) =>
      match m.indexOf rid with
      | none => none
      | some bo =>
        (resolveSpec m applyFn fuel bo).map fun hb =>
          let r := applyFn hb.2 (m.payloadAt (offset + hlen))
          ({ kind := h.kind, len := r.length }, r)

/-- Concrete two-delta pack for claim C1: a blob `[9, 9]` at offset 0, an
`OfsDelta` at offset 100 whose base is offset 0 (script `[1]` at data
offset 102), and an `OfsDelta` at offset 200 whose base is offset 100
(script `[2]` at data offset 202). -/
def cexPack : PackModel :=
  { entryAt := fun o =>
      if o = 0 then some (EntryView.base { kind := ObjectKind.blob, len := 2 } [9, 9])
      else if o = 100 then some (EntryView.ofs { kind := ObjectKind.ofsDelta, len := 1 } 100 2)
      else if o = 200 then some (EntryView.ofs { kind := ObjectKind.ofsDelta, len := 1 } 100 2)
      else none,
    indexOf := fun _ => none,
    payloadAt := fun o => if o = 102 then [1] else if o = 202 then [2] else [] }

/-- Order-revealing delta application used with `cexPack`: append the
script to the base. -/
def cexApply (b p : Bytes) : Bytes := b ++ p

end Pack

/-! ## Loose store (`src/object/database/loose.rs`)

The filesystem under `<root>/objects` is modelled as an association list
from `(dir, file)` path components to stored file contents; SHA-1 and the
zlib encoder/decoder are parameters of the theorems (the source defers to
the `sha1` and `flate2` crates). -/

namespace Loose

/-- The error enum `ReadLooseError` of `loose.rs`. -/
inductive ReadLooseError where
  | notFound
  | ambiguous
  | io
  deriving DecidableEq

/-- Lowercase hex digit character code (the `hex::encode` alphabet). -/
def toHexChar (n : Nat) : Nat := if n < 10 then 48 + n else 87 + n

/-- Function `hex::encode` / `Id::to_hex`: lowercase hex transcription of
a byte string. -/
def toHex (bytes : Bytes) : Bytes :=
  (bytes.map (fun b => [toHexChar (b / 16), toHexChar (b % 16)])).flatten

/-- Function `object_path_parts` of `loose.rs`: `hex.split_at(2)`. -/
def object_path_parts (hex : Bytes) : Bytes × Bytes := (hex.take 2, hex.drop 2)

/-- The objects directory, as a finite map path-components → contents. -/
abbrev Fs := List ((Bytes × Bytes) × Bytes)

/-- Look a path up in the modelled filesystem. -/
def fsLookup : Fs → Bytes × Bytes → Option Bytes
  | [], _ => none
  | (k, v) :: rest, key => if k = key then some v else fsLookup rest key

/-- Method `LooseObjectDatabase::write_object`: hash, map to a path,
create the shard directory (a no-op on the map model), then
`create_new`: if the file exists the pre-existing copy wins (only its
mtime is refreshed), otherwise the zlib-compressed bytes are written. -/
def write_object (sha1 : Bytes → Bytes) (deflate : Bytes → Bytes)
    (fs : Fs) (bytes : Bytes) : Fs × Bytes :=
  let idBytes := sha1 bytes
  let hex := toHex idBytes
  let path := object_path_parts hex
  match fsLookup fs path with
  | some _ => (fs, idBytes)
  | none => ((path, deflate bytes) :: fs, idBytes)

/-- Method `LooseObjectDatabase::read_object`: open the file at the id's
path and hand back a reader that streams it through zlib inflation
(`ObjectReader::from_file` wraps the file in a `ZlibDecoder`); a missing
file is `NotFound`. -/
def read_object (inflate : Bytes → Bytes) (fs : Fs) (idBytes : Bytes) :
    Except ReadLooseError Bytes :=
  match fsLookup fs (object_path_parts (toHex idBytes)) with
  | some contents => Except.ok (inflate contents)
  | none => Except.error ReadLooseError.notFound

end Loose

/-! ## Commit parsing (`src/object/commit.rs`)

`Commit::parse` consumes a `Parser` positioned at the start of the commit
body; the parser primitives are those of `src/object/parser.rs` plus the
`parse_hex_id_line` / `parse_signature` / `parse_line` helpers defined in
`commit.rs` itself. -/

/-- Method `Parser::consume_bytes`: consume an expected prefix. -/
def Parser.consume_bytes (p : Parser) (bs : Bytes) : Bool × Parser :=
  if bs.isPrefixOf p.remaining_buffer then (true, { p with pos := p.pos + bs.length })
  else (false, p)

/-- Method `Parser::advance`: move past `n` bytes if available. -/
def Parser.advance (p : Parser) (n : Nat) : Bool × Parser :=
  if p.remaining < n then (false, p) else (true, { p with pos := p.pos + n })

/-- Method `Parser::consume_until`: find the delimiter in the remaining
buffer (`memchr`), return the range before it and consume through it. -/
def Parser.consume_until (p : Parser) (ch : Nat) : Option ((Nat × Nat) × Parser) :=
  match p.remaining_buffer.findIdx? (fun b => b == ch) with
  | some i => some ((p.pos, p.pos + i), { p with pos := p.pos + i + 1 })
  | none => none

/-- Range slice of the parser's underlying buffer (`self.bytes(range)`). -/
def Parser.slice (p : Parser) (r : Nat × Nat) : Bytes :=
  (p.buffer.drop r.1).take (r.2 - r.1)

/-- The error enum `ParseError` of `src/object/parser.rs`, restricted to
the variants `Commit::parse` can produce; `fuelExhausted` is unreachable
for the fuel the callers pass (every loop iteration consumes at least one
byte). -/
inductive ParseError where
  | invalidCommit
  | fuelExhausted
  deriving DecidableEq

/-- Predicate for `Id::from_hex` (via the `hex` crate's array `FromHex`)
succeeding on a 40-character range: correct length and all hex digits. -/
def idFromHexOk (l : Bytes) : Bool :=
  l.length == 40 && l.all (fun c => (hexDigitVal c).isSome)

/-- Semantics of `Signature::is_valid` (`Signature::regex().is_match`) on
the newline-free line slices `Commit::parse` feeds it.  The regex
`{pad}(.*){pad} <{pad}(.*){pad}>(?: (\d+)(?: ([+\-]\d+))?)?` is
unanchored and every `pad`/`(.*)` group is `*`-quantified, so on a
newline-free input a match exists exactly when a space directly followed
by `<` occurs, with some `>` after that pair. -/
def sigValid (l : Bytes) : Bool :=
  (List.range l.length).any fun i =>
    l.getD i 0 == 32 && l.getD (i + 1) 0 == 60 && (l.drop (i + 2)).contains 62

/-- Helper `parse_line` of `commit.rs`: consume the prefix (or report
`None`), then take the range up to the next newline (consuming it);
a missing newline is `InvalidCommit`. -/
def Parser.parse_line (p : Parser) (pre : Bytes) :
    Except ParseError (Option (Nat × Nat) × Parser) :=
  match p.consume_bytes pre with
  | (false, p1) => Except.ok (none, p1)
  | (true, p1) =>
    match p1.consume_until 10 with
    | none => Except.error ParseError.invalidCommit
    | some (r, p2) => Except.ok (some r, p2)

/-- Helper `parse_hex_id_line` of `commit.rs`: consume the prefix (or
report `None`), advance over exactly 40 hex characters plus a newline,
and validate the hex with `Id::from_hex`. -/
def Parser.parse_hex_id_line (p : Parser) (pre : Bytes) :
    Except ParseError (Option Nat × Parser) :=
  match p.consume_bytes pre with
  | (false, p1) => Except.ok (none, p1)
  | (true, p1) =>
    let start := p1.pos
    match p1.advance 40 with
    | (false, _) => Except.error ParseError.invalidCommit
    | (true, p2) =>
      match p2.consume_bytes [10] with
      | (false, _) => Except.error ParseError.invalidCommit
      | (true, p3) =>
        if idFromHexOk ((p3.buffer.drop start).take 40) then Except.ok (some start, p3)
        else Except.error ParseError.invalidCommit

/-- Helper `parse_signature` of `commit.rs`: a `parse_line` whose range
must satisfy `Signature::is_valid`. -/
def Parser.parse_signature (p : Parser) (pre : Bytes) :
    Except ParseError (Option (Nat × Nat) × Parser) :=
  match p.parse_line pre with
  | Except.error e => Except.error e
  | Except.ok (none, p1) => Except.ok (none, p1)
  | Except.ok (some r, p1) =>
    if sigValid (p1.slice r) then Except.ok (some r, p1)
    else Except.error ParseError.invalidCommit

/-- The struct `Commit` of `commit.rs`: the owned body plus offsets and
ranges into it. -/
structure Commit where
  data : Bytes
  tree : Nat
  parents : List Nat
  author : Nat × Nat
  committer : Nat × Nat
  encoding : Option (Nat × Nat)
  message : Nat
  deriving DecidableEq

/-- Character codes of the prefix `"tree "`. -/
def treePrefix : Bytes := [116, 114, 101, 101, 32]

/-- Character codes of the prefix `"parent "`. -/
def parentPrefix : Bytes := [112, 97, 114, 101, 110, 116, 32]

/-- Character codes of the prefix `"author "`. -/
def authorPrefix : Bytes := [97, 117, 116, 104, 111, 114, 32]

/-- Character codes of the prefix `"committer "`. -/
def committerPrefix : Bytes := [99, 111, 109, 109, 105, 116, 116, 101, 114, 32]

/-- Character codes of the prefix `"encoding "`. -/
def encodingPrefix : Bytes := [101, 110, 99, 111, 100, 105, 110, 103, 32]

/-- The `while let Some(parent) = parser.parse_hex_id_line(b"parent ")?`
loop of `Commit::parse`, collecting parent offsets in order. -/
def parentsLoop : Nat → Parser → List Nat → Except ParseError (List Nat × Parser)
  | 0, _, _ => Except.error ParseError.fuelExhausted
  | fuel + 1, p, acc =>
    match p.parse_hex_id_line parentPrefix with
    | Except.error e => Except.error e
    | Except.ok (none, p1) => Except.ok (acc, p1)
    | Except.ok (some v, p1) => parentsLoop fuel p1 (acc ++ [v])

/-- The `while parser.parse_signature(b"author ")?.is_some() {}` loop of
`Commit::parse` that discards extra author lines. -/
def extraAuthorsLoop : Nat → Parser → Except ParseError Parser
  | 0, _ => Except.error ParseError.fuelExhausted
  | fuel + 1, p =>
    match p.parse_signature authorPrefix with
    | Except.error e => Except.error e
    | Except.ok (none, p1) => Except.ok p1
    | Except.ok (some _, p1) => extraAuthorsLoop fuel p1

/-- The additional-headers loop of `Commit::parse`: until an empty line
is consumed, retain the last `encoding ` line and skip any other line;
a header line with no newline is `InvalidCommit`. -/
def headersLoop : Nat → Parser → Option (Nat × Nat) →
    Except ParseError (Option (Nat × Nat) × Parser)
  | 0, _, _ => Except.error ParseError.fuelExhausted
  | fuel + 1, p, enc =>
    match p.consume_bytes [10] with
    | (true, p1) => Except.ok (enc, p1)
    | (false, p1) =>
      match p1.parse_line encodingPrefix with
      | Except.error e => Except.error e
      | Except.ok (some r, p2) => headersLoop fuel p2 (some r)
      | Except.ok (none, p2) =>
        match p2.consume_until 10 with
        | none => Except.error ParseError.invalidCommit
        | some (_, p3) => headersLoop fuel p3 enc

/-- Function `Commit::parse` of `commit.rs` on a parser freshly
positioned at the commit body: mandatory tree line, any number of parent
lines, a mandatory author signature, any number of additional author
signatures (discarded), a mandatory committer signature, then additional
headers up to the empty line; the rest is the message. -/
def Commit.parse (body : Bytes) : Except ParseError Commit :=
  match (Parser.new body).parse_hex_id_line treePrefix with
  | Except.error e => Except.error e
  | Except.ok (none, _) => Except.error ParseError.invalidCommit
  | Except.ok (some tree, p1) =>
    match parentsLoop (body.length + 1) p1 [] with
    | Except.error e => Except.error e
    | Except.ok (parents, p2) =>
      match p2.parse_signature authorPrefix with
      | Except.error e => Except.error e
      | Except.ok (none, _) => Except.error ParseError.invalidCommit
      | Except.ok (some author, p3) =>
        match extraAuthorsLoop (body.length + 1) p3 with
        | Except.error e => Except.error e
        | Except.ok p4 =>
          match p4.parse_signature committerPrefix with
          | Except.error e => Except.error e
          | Except.ok (none, _) => Except.error ParseError.invalidCommit
          | Except.ok (some committer, p5) =>
            match headersLoop (body.length + 1) p5 none with
            | Except.error e => Except.error e
            | Except.ok (encoding, p6) =>
              Except.ok
                { data := p6.buffer, tree := tree, parents := parents,
                  author := author, committer := committer,
                  encoding := encoding, message := p6.pos }

/-- Serialisation of the commit bodies claim C8 quantifies over: a tree
line, parent lines, two or more author lines, a committer line, the
terminating empty line, then the message. -/
def commitBody (t : Bytes) (parents : List Bytes) (a1 : Bytes) (extras : List Bytes)
    (c : Bytes) (msg : Bytes) : Bytes :=
  treePrefix ++ t ++ [10]
    ++ (parents.map (fun p => parentPrefix ++ p ++ [10])).flatten
    ++ authorPrefix ++ a1 ++ [10]
    ++ (extras.map (fun a => authorPrefix ++ a ++ [10])).flatten
    ++ committerPrefix ++ c ++ [10]
    ++ [10] ++ msg

/-- A line is usable as a signature line: it contains no newline and the
signature regex accepts it. -/
def sigLineOk (l : Bytes) : Prop := l.contains 10 = false ∧ sigValid l = true

/-! ## Repository opening (`src/repository.rs`) -/

namespace Repo

/-- Result of `fs::metadata(dotgit)` as `Repository::open` inspects it:
success with the directory flag, a `NotFound` I/O error, or any other
I/O error. -/
inductive Metadata where
  | found (isDir : Bool)
  | errNotFound
  | errOther
  deriving DecidableEq

/-- A path, as its byte string. -/
abbrev Path := Bytes

/-- The constant `DOTGIT_FOLDER` (`".git"`). -/
def DOTGIT_FOLDER : Path := [46, 103, 105, 116]

/-- Path join with a separator. -/
def pathJoin (a b : Path) : Path := a ++ [47] ++ b

/-- The struct `Repository` (fields relevant to `open`; the object
database handle is elided — its construction is the success path). -/
structure Repository where
  workdir : Path
  dotgit : Path
  deriving DecidableEq

/-- The result of `Repository::open`: the repository, `NotFound`
carrying the root path, or an I/O error. -/
inductive OpenResult where
  | opened (r : Repository)
  | notFound (path : Path)
  | ioError
  deriving DecidableEq

/-- Function `Repository::open` of `src/repository.rs` given the
filesystem's answer `meta` for `fs::metadata(path.join(".git"))`:
a directory proceeds; a non-directory entry and a missing entry are both
`OpenError::NotFound(path)`; any other metadata error is an I/O error. -/
def openRepository (path : Path) (meta : Metadata) : OpenResult :=
  let dotgit := pathJoin path DOTGIT_FOLDER
  match meta with
  | Metadata.found true => OpenResult.opened { workdir := path, dotgit := dotgit }
  | Metadata.found false => OpenResult.notFound path
  | Metadata.errNotFound => OpenResult.notFound path
  | Metadata.errOther => OpenResult.ioError

end Repo

/-! ## Remaining concrete values used by the theorems -/

/-- Method `Commit::author` materialises `&self.data[self.author]`;
these are the bytes the returned `Signature` captures over. -/
def Commit.authorBytes (cm : Commit) : Bytes :=
  (cm.data.drop cm.author.1).take (cm.author.2 - cm.author.1)

/-- Method `Commit::committer` materialises `&self.data[self.committer]`. -/
def Commit.committerBytes (cm : Commit) : Bytes :=
  (cm.data.drop cm.committer.1).take (cm.committer.2 - cm.committer.1)

/-- Method `Commit::message`: `&self.data[self.message..]`. -/
def Commit.messageBytes (cm : Commit) : Bytes := cm.data.drop cm.message

/-- The `ShortId` produced by `ShortId::from_hex("cde2")` (the prefix
used by the `test_id_ordering` test of `src/object.rs`). -/
def cde2Short : ShortId := { id := [205, 226] ++ List.replicate 18 0, len := 2 }

/-- The full id `cde2000000000000000000000000000000000000` from the same
test: `cde2` is a proper prefix of it. -/
def cde20Id : Id := Id.mk ([205, 226] ++ List.replicate 18 0)

/-- Fan-out table for the two-pack counterexample indexes: buckets 0–63
hold 0, buckets 64–255 hold `c`. -/
def fanoutC6 (c : Nat) : Bytes :=
  List.replicate 256 0 ++ (List.replicate 192 ([0, 0, 0, c] : Bytes)).flatten

/-- A one-entry V2 index file whose only id is `4046b3b7…`, with small
offset 0x24 (sizes satisfy `packed.rs`'s `IndexFile::open` bounds). -/
def fixtureP1 : Bytes :=
  [255, 116, 79, 99, 0, 0, 0, 2] ++ fanoutC6 1 ++ id4046b3Bytes ++ [0, 0, 0, 0]
    ++ [0, 0, 0, 36] ++ trailerIdBytes ++ List.replicate 20 0

/-- A one-entry V2 index file whose only id is `4046d562…`. -/
def fixtureP2 : Bytes :=
  [255, 116, 79, 99, 0, 0, 0, 2] ++ fanoutC6 1 ++ id4046d5Bytes ++ [0, 0, 0, 0]
    ++ [0, 0, 0, 36] ++ trailerIdBytes ++ List.replicate 20 0

/-- A two-entry V2 index file holding both `4046…` ids, so that a lookup
of the short id `4046` inside it alone is ambiguous. -/
def fixturePAmb : Bytes :=
  [255, 116, 79, 99, 0, 0, 0, 2] ++ fanoutC6 2 ++ id4046b3Bytes ++ id4046d5Bytes
    ++ List.replicate 8 0 ++ [0, 0, 0, 36, 0, 0, 0, 66] ++ trailerIdBytes
    ++ List.replicate 20 0

/-- The parsed form of `fixtureP1`. -/
def pkdP1 : Idx.IndexFile := { data := fixtureP1, version := Idx.Version.v2, count := 1 }

/-- The parsed form of `fixtureP2`. -/
def pkdP2 : Idx.IndexFile := { data := fixtureP2, version := Idx.Version.v2, count := 1 }

/-- The parsed form of `fixturePAmb`. -/
def pkdPAmb : Idx.IndexFile := { data := fixturePAmb, version := Idx.Version.v2, count := 2 }

/-! ## Theorems -/

set_option maxRecDepth 1000000
set_option maxHeartbeats 4000000

/-- Claim C1 (code bug, evaluated at the failing input): on the two-delta
chain of `cexPack`, `PackFile::read_object` applies the collected chain
in *collection* order — the delta at the requested offset (pushed first)
is applied first, directly to the concrete base — producing `[9,9,2,1]`,
whereas applying in reverse collection order, like resolving each delta
against its own resolved base, produces `[9,9,1,2]`.  The claim (and
spec §4.7 step 2) says the code does the latter; it does the former. -/
theorem read_object_applies_chain_in_collection_order :
    Pack.read_object Pack.cexPack Pack.cexApply 10 200 =
      Except.ok ({ kind := ObjectKind.ofsDelta, len := 4 }, [9, 9, 2, 1])
    ∧ Pack.read_object_claimed Pack.cexPack Pack.cexApply 10 200 =
      Except.ok ({ kind := ObjectKind.ofsDelta, len := 4 }, [9, 9, 1, 2])
    ∧ Pack.resolveSpec Pack.cexPack Pack.cexApply 10 200 =
      some ({ kind := ObjectKind.ofsDelta, len := 4 }, [9, 9, 1, 2])
    ∧ ([9, 9, 2, 1] : Bytes) ≠ [9, 9, 1, 2] := by
  refine ⟨rfl, rfl, rfl, by decide⟩

/-- Claim C2 counterexample: the byte sequence `0x80 0x00` has the
continuation shape of the claim, the biased formula of the claim gives
`((0 + 1) << 7) | 0 = 128`, but `read_delta_offset` returns 0 — the
source accumulates `(val << 7) + (b & 0x7f)` without the `+ 1` bias (its
own unit test `pack_object_header_max_delta_offset_len` fixes the
unbiased value). -/
theorem read_delta_offset_bias_cex :
    (128 &&& 128 ≠ 0) ∧ (0 &&& 128 = 0)
    ∧ Pack.read_delta_offset [128, 0] = Except.ok 0
    ∧ Pack.claimedBiasedDeltaOffset [128, 0] = 128
    ∧ (0 : Nat) ≠ 128 := by
  refine ⟨by decide, by decide, rfl, by decide, by decide⟩

/-- Claim C3 (code bug, evaluated at the failing input): for base `"a"`
and result `"ab"`, the claim's delta construction is
`cexDeltaStream = [1, 2, 0x90, 0x01, 0x01, 'b']` (copy `base[0..1]`, then
insert `"b"`).  `apply_delta` fails on it instead of returning `"ab"`:
the copy command `0x90` is dispatched by `cmd & 0b1000_000` (a seven-digit
literal, 0x40), so it is misread as an insert of 144 bytes, which
overruns the stream.  (Independently, `result.copy_from_slice(&src)` is
the overwriting slice method on an empty `BytesMut` and panics on every
non-empty source, so no delta with a command can ever succeed.) -/
theorem apply_delta_claimed_construction_fails :
    Delta.apply_delta ObjectKind.blob [97] Delta.cexDeltaStream =
      Except.error Delta.DeltaError.parse
    ∧ Delta.apply_delta ObjectKind.blob [97] Delta.cexDeltaStream ≠
      Except.ok ({ kind := ObjectKind.blob, len := 2 }, [97, 98])
    ∧ Delta.apply_delta ObjectKind.blob [] [0, 2, 2, 97, 98] =
      Except.error Delta.DeltaError.panicked := by
  refine ⟨rfl, by decide, rfl⟩

/-- Claim C4 counterexample: for the short id `cde2` (k = 2 < 20) and the
entry id `cde20000…00` the first two bytes agree, so the claim requires
`Equal`; the source comparison is plain byte-slice lexicographic order,
a proper prefix sorts strictly *before*, and both `cmp_id` and the
`cmp_short` used by the index binary search return a strict ordering. -/
theorem cmp_id_prefix_not_equal_cex :
    (cde20Id.bytes.take cde2Short.len = cde2Short.as_bytes ∧ cde2Short.len < 20)
    ∧ cde2Short.cmp_id cde20Id = Ordering.lt
    ∧ cde2Short.cmp_id cde20Id ≠ Ordering.eq
    ∧ cde20Id.cmp_short cde2Short = Ordering.gt
    ∧ cde20Id.cmp_short cde2Short ≠ Ordering.eq := by
  refine ⟨by decide, by decide, by decide, by decide, by decide⟩

/-- Claim C10: `Repository::open` returns `OpenError::NotFound` carrying
the root path both when no `.git` entry exists under the root and when
the entry exists but is not a directory; in neither case is a repository
constructed. -/
theorem repository_open_notfound (path : Repo.Path) (meta : Repo.Metadata)
    (h : meta = Repo.Metadata.found false ∨ meta = Repo.Metadata.errNotFound) :
    Repo.openRepository path meta = Repo.OpenResult.notFound path := by
  rcases h with h | h <;> subst h <;> rfl

/-- Witness for `repository_open_notfound` at concrete inputs: a `.git`
that is a regular file, and a missing `.git`. -/
theorem repository_open_notfound_witness :
    (Repo.Metadata.found false = Repo.Metadata.found false
        ∨ Repo.Metadata.found false = Repo.Metadata.errNotFound)
    ∧ Repo.openRepository [97] (Repo.Metadata.found false) =
        Repo.OpenResult.notFound [97]
    ∧ Repo.openRepository [97] Repo.Metadata.errNotFound =
        Repo.OpenResult.notFound [97] :=
  ⟨Or.inl rfl,
   repository_open_notfound [97] (Repo.Metadata.found false) (Or.inl rfl),
   repository_open_notfound [97] Repo.Metadata.errNotFound (Or.inr rfl)⟩

/-- Claim C5: on the byte-exact V1 and V2 three-entry fixtures of the
`index.rs` tests (fan-out split at first bytes 0x20 and 0x40, entries
`2057bab3…`, `4046b3b7…`, `4046d562…` at offsets 0x24, 0x42, 0x61),
`find_offset("2057bab324290cc7")` returns offset 0x24 with the full first
id, `find_offset("4046")` is `Ambiguous`, and `find_offset("4048")` is
`NotFound`, in both index versions. -/
theorem index_fixture_lookups :
    Idx.IndexFile.parse fixtureV1 = Except.ok idxV1
    ∧ Idx.IndexFile.parse fixtureV2 = Except.ok idxV2
    ∧ ShortId.from_hex hexS2057 = Except.ok short2057
    ∧ ShortId.from_hex hexS4046 = Except.ok short4046
    ∧ ShortId.from_hex hexS4048 = Except.ok short4048
    ∧ idxV1.find_offset short2057 = Except.ok (36, Id.mk id2057Bytes)
    ∧ idxV1.find_offset short4046 = Except.error Idx.FindIndexOffsetError.ambiguous
    ∧ idxV1.find_offset short4048 = Except.error Idx.FindIndexOffsetError.notFound
    ∧ idxV2.find_offset short2057 = Except.ok (36, Id.mk id2057Bytes)
    ∧ idxV2.find_offset short4046 = Except.error Idx.FindIndexOffsetError.ambiguous
    ∧ idxV2.find_offset short4048 = Except.error Idx.FindIndexOffsetError.notFound := by
  refine ⟨rfl, rfl, rfl, rfl, rfl, rfl, rfl, rfl, rfl, rfl, rfl⟩

/-- Claim C6 counterexample: two one-entry packs (V2 index fixtures that
satisfy `IndexFile::open`'s length bounds: each has exactly
`count * 28 + 40` bytes after the fan-out) resolve `4046` to two
*different* full ids, yet `try_read_object` reads the object of
whichever pack is consulted first (outcome `readObject 0 …`), not
`Ambiguous`; likewise a pack whose own lookup is `Ambiguous` is never
consulted when an earlier pack matches. -/
theorem try_read_object_first_match_cex :
    Pkd.find_offset pkdP1 short4046 = Except.ok (0, Id.mk id4046b3Bytes)
    ∧ Pkd.find_offset pkdP2 short4046 = Except.ok (0, Id.mk id4046d5Bytes)
    ∧ Id.mk id4046b3Bytes ≠ Id.mk id4046d5Bytes
    ∧ Pkd.find_offset pkdPAmb short4046 = Except.error (Pkd.Error.ambiguous short4046)
    ∧ Pkd.try_read_object [pkdP1, pkdP2] short4046 = Pkd.TryReadOutcome.readObject 0 0
    ∧ Pkd.try_read_object [pkdP1, pkdP2] short4046 ≠
        Pkd.TryReadOutcome.err (Pkd.Error.ambiguous short4046)
    ∧ Pkd.try_read_object [pkdP1, pkdPAmb] short4046 = Pkd.TryReadOutcome.readObject 0 0
    ∧ Pkd.try_read_object [pkdP1, pkdPAmb] short4046 ≠
        Pkd.TryReadOutcome.err (Pkd.Error.ambiguous short4046) := by
  refine ⟨rfl, rfl, by decide, rfl, rfl, by decide, rfl, by decide⟩

/-- Claim C6 amended: `try_read_object` consults the packs in iteration
order and acts on the first whose index lookup does not report
`NotFound` — reading that pack's object on a hit (later packs are never
consulted, so cross-pack disagreement goes undetected) and propagating
that pack's error (including `Ambiguous`) otherwise; `NotFound` is
returned only when every pack reports `NotFound`. -/
theorem try_read_object_first_non_notfound (packs : List Idx.IndexFile) (s : ShortId) :
    Pkd.try_read_object packs s = Pkd.firstNonNotFoundSpec s packs 0 := by
  have h : ∀ (l : List Idx.IndexFile) (i : Nat),
      Pkd.tryReadLoop s l i = Pkd.firstNonNotFoundSpec s l i := by
    intro l
    induction l with
    | nil => intro i; rfl
    | cons p rest ih =>
      intro i
      cases hf : Pkd.find_offset p s with
      | ok v => simp [Pkd.tryReadLoop, Pkd.firstNonNotFoundSpec, hf]
      | error e =>
        cases e <;> simp [Pkd.tryReadLoop, Pkd.firstNonNotFoundSpec, hf, ih]
  exact h packs 0

/-- Claim C7: writing a buffer to the loose store returns its SHA-1 as
the id, and reading that id back yields exactly the written bytes once
zlib inflation is applied — provided inflate inverts deflate and the
object's path is either still free or already holds this object's
compressed bytes (the only states the loose layer itself produces, since
an existing file is left untouched). -/
theorem loose_write_read_roundtrip
    (sha1 deflate inflate : Bytes → Bytes) (fs : Loose.Fs) (B : Bytes)
    (hz : ∀ x, inflate (deflate x) = x)
    (hfree : Loose.fsLookup fs (Loose.object_path_parts (Loose.toHex (sha1 B))) = none
      ∨ Loose.fsLookup fs (Loose.object_path_parts (Loose.toHex (sha1 B))) =
          some (deflate B)) :
    (Loose.write_object sha1 deflate fs B).2 = sha1 B
    ∧ Loose.read_object inflate (Loose.write_object sha1 deflate fs B).1 (sha1 B) =
        Except.ok B := by
  rcases hfree with h | h <;>
    simp [Loose.write_object, Loose.read_object, h, Loose.fsLookup, hz]

/-- Witness for `loose_write_read_roundtrip`: identity compression, a
constant hash, the empty store and the buffer `[1, 2, 3]`. -/
theorem loose_write_read_roundtrip_witness :
    (∀ x : Bytes, (fun y : Bytes => y) ((fun y : Bytes => y) x) = x)
    ∧ (Loose.fsLookup []
        (Loose.object_path_parts (Loose.toHex ((fun _ : Bytes => [0]) [1, 2, 3]))) = none)
    ∧ ((Loose.write_object (fun _ => [0]) (fun y => y) [] [1, 2, 3]).2 =
        (fun _ : Bytes => [0]) [1, 2, 3]
      ∧ Loose.read_object (fun y => y)
          (Loose.write_object (fun _ => [0]) (fun y => y) [] [1, 2, 3]).1
          ((fun _ : Bytes => [0]) [1, 2, 3]) = Except.ok [1, 2, 3]) :=
  ⟨fun _ => rfl, rfl,
   loose_write_read_roundtrip (fun _ => [0]) (fun y => y) (fun y => y) [] [1, 2, 3]
     (fun _ => rfl) (Or.inl rfl)⟩

/-- Claim C9: `ShortId::from_hex` on a hex string of odd length strictly
between 4 and 40 fails with the hex-decoding error variant (the `hex`
crate's odd-length check), never `TooShort`/`TooLong` and never a
`ShortId`; and any input it accepts has even length between 4 and 40. -/
theorem short_id_from_hex_odd_length (hex : Bytes)
    (h4 : 4 < hex.length) (h40 : hex.length < 40) (hodd : hex.length % 2 = 1) :
    ShortId.from_hex hex = Except.error (ParseIdError.hex FromHexError.oddLength)
    ∧ ∀ (h' : Bytes) (s : ShortId), ShortId.from_hex h' = Except.ok s →
        h'.length % 2 = 0 ∧ 4 ≤ h'.length ∧ h'.length ≤ 40 := by
  constructor
  · have ha : ¬ hex.length < SHORT_ID_MIN_HEX_LEN := by
      simp only [SHORT_ID_MIN_HEX_LEN]; omega
    have hb : ¬ hex.length > ID_HEX_LEN := by
      simp only [ID_HEX_LEN]; omega
    simp [ShortId.from_hex, decode_to_slice, ha, hb, hodd]
  · intro h' s hok
    by_cases ha : h'.length < SHORT_ID_MIN_HEX_LEN
    · simp [ShortId.from_hex, ha] at hok
    · by_cases hb : h'.length > ID_HEX_LEN
      · simp [ShortId.from_hex, ha, hb] at hok
      · by_cases hc : h'.length % 2 = 0
        · simp only [SHORT_ID_MIN_HEX_LEN] at ha
          simp only [ID_HEX_LEN] at hb
          exact ⟨hc, by omega, by omega⟩
        · simp [ShortId.from_hex, decode_to_slice, ha, hb, hc] at hok

/-- Witness for `short_id_from_hex_odd_length` at the five-character hex
string `"00000"`. -/
theorem short_id_from_hex_odd_length_witness :
    (4 < ([48, 48, 48, 48, 48] : Bytes).length
      ∧ ([48, 48, 48, 48, 48] : Bytes).length < 40
      ∧ ([48, 48, 48, 48, 48] : Bytes).length % 2 = 1)
    ∧ ShortId.from_hex [48, 48, 48, 48, 48] =
        Except.error (ParseIdError.hex FromHexError.oddLength) :=
  ⟨by decide,
   (short_id_from_hex_odd_length [48, 48, 48, 48, 48] (by decide) (by decide) (by decide)).1⟩

/-- Value of `List.findIdx?` on a list known to consist of non-matching
bytes followed by a matching one (shared by the varint-delimiting and
line-splitting arguments). -/
theorem findIdx?_first_true (p : Nat → Bool) (pre : Bytes) (x : Nat) (rest : Bytes)
    (hpre : ∀ b ∈ pre, p b = false) (hx : p x = true) :
    ∀ i, List.findIdx? p (pre ++ x :: rest) i = some (i + pre.length) := by
  induction pre with
  | nil => intro i; simp [List.findIdx?_cons, hx]
  | cons a l ih =>
    intro i
    have ha : p a = false := hpre a (by simp)
    have ih' := ih (fun b hb => hpre b (by simp [hb])) (i + 1)
    simp only [List.cons_append, List.findIdx?_cons, ha]
    rw [if_neg (by simp [ha]), ih']
    congr 1
    simp [List.length_cons]
    omega

theorem foldl_step_eq_unbiased (b : Nat) (t : Bytes) :
    (b :: t).foldl Pack.deltaOffsetStep 0 = Pack.unbiasedDeltaOffset (b :: t) := by
  have h1 : Pack.deltaOffsetStep 0 b = b &&& 127 := by
    have : b &&& 127 ≤ 127 := Nat.and_le_right
    simp [Pack.deltaOffsetStep, Pack.U64_MOD]
    omega
  simp [List.foldl_cons, Pack.unbiasedDeltaOffset, h1]

/-- Claim C2 amended: for every well-formed backward-distance encoding —
at most 10 bytes, continuation bit 0x80 set on all but the last byte —
`read_delta_offset` consumes exactly those bytes and returns the
*unbiased* big-endian base-128 value: `val := b0 & 0x7f`, then
`val := ((val << 7) + (b & 0x7f)) mod 2^64` for each subsequent byte
(no `+ 1` bias is applied). -/
theorem read_delta_offset_unbiased (init : Bytes) (lastB : Nat) (rest : Bytes)
    (hlen : init.length + 1 ≤ 10)
    (hcont : ∀ b ∈ init, b &&& 128 ≠ 0)
    (hlast : lastB &&& 128 = 0) :
    Pack.read_delta_offset (init ++ lastB :: rest) =
      Except.ok (Pack.unbiasedDeltaOffset (init ++ [lastB])) := by
  have hwin : (init ++ lastB :: rest).take 10
      = init ++ lastB :: rest.take (10 - init.length - 1) := by
    rw [List.take_append_eq_append_take,
        List.take_of_length_le (by omega)]
    congr 1
    have h9 : 10 - init.length = (10 - init.length - 1) + 1 := by omega
    rw [h9]
    simp [List.take_cons]
  have hfind : ((init ++ lastB :: rest).take 10).findIdx?
      (fun b => b &&& 128 == 0) = some init.length := by
    rw [hwin]
    have := findIdx?_first_true (fun b => b &&& 128 == 0) init lastB
      (rest.take (10 - init.length - 1))
      (fun b hb => by simpa using hcont b hb) (by simpa using hlast) 0
    simpa using this
  have htake : (init ++ lastB :: rest).take (init.length + 1) = init ++ [lastB] := by
    rw [List.take_append_eq_append_take, List.take_of_length_le (by omega)]
    congr 1
    simp
  have hne : init ++ [lastB] ≠ [] := by simp
  unfold Pack.read_delta_offset
  rw [show Pack.MAX_DELTA_OFFSET_LEN = 10 from rfl]
  rw [hfind]
  dsimp only []
  rw [htake]
  cases h : init ++ [lastB] with
  | nil => exact absurd h hne
  | cons b t => rw [foldl_step_eq_unbiased]

theorem byteListCmp_eq_iff : ∀ (a b : Bytes), byteListCmp a b = Ordering.eq ↔ a = b := by
  intro a
  induction a with
  | nil => intro b; cases b <;> simp [byteListCmp]
  | cons x xs ih =>
    intro b
    cases b with
    | nil => simp [byteListCmp]
    | cons y ys =>
      by_cases h1 : x < y
      · simp [byteListCmp, h1]
        omega
      · by_cases h2 : y < x
        · simp [byteListCmp, h1, h2]
          omega
        · have hxy : x = y := by omega
          subst hxy
          simp [byteListCmp, h1, h2, ih ys]

theorem byteListCmp_prefix_lt : ∀ (l : Bytes) (x : Nat) (t : Bytes),
    byteListCmp l (l ++ x :: t) = Ordering.lt := by
  intro l
  induction l with
  | nil => intro x t; simp [byteListCmp]
  | cons a as ih =>
    intro x t
    simp [byteListCmp, ih]

theorem byteListCmp_take_of_ne : ∀ (xs ys : Bytes), xs.length ≤ ys.length →
    ys.take xs.length ≠ xs → byteListCmp xs ys = byteListCmp xs (ys.take xs.length) := by
  intro xs
  induction xs with
  | nil => intro ys _ hne; simp at hne
  | cons a as ih =>
    intro ys hlen hne
    cases ys with
    | nil => simp at hlen
    | cons b bs =>
      simp only [List.length_cons] at hne ⊢
      by_cases h1 : a < b
      · simp [byteListCmp, h1]
      · by_cases h2 : b < a
        · simp [byteListCmp, h1, h2]
        · have hab : a = b := by omega
          subst hab
          have hne' : bs.take as.length ≠ as := by
            intro hcontra
            exact hne (by rw [List.take_succ_cons, hcontra])
          simp only [byteListCmp, if_neg h1, if_neg h2]
          exact ih bs (by simpa using hlen) hne'

/-- Claim C4 amended: the comparison used by the index binary search is
plain byte-wise lexicographic comparison of the k significant bytes of
the short id against the full 20-byte entry id.  When the first k bytes
of the entry equal the significant bytes and k < 20 it returns `Less`
(a proper prefix sorts strictly before every id it prefixes), never
`Equal`; it returns `Equal` exactly when k = 20 and all bytes agree; and
when the prefixes differ it returns their byte-wise comparison. -/
theorem cmp_id_lexicographic (s : ShortId) (e : Id)
    (hbuf : s.id.length = 20) (hk : s.len ≤ 20) (he : e.bytes.length = 20) :
    (e.bytes.take s.len = s.as_bytes → s.len < 20 → s.cmp_id e = Ordering.lt)
    ∧ (s.cmp_id e = Ordering.eq ↔ (s.len = 20 ∧ s.as_bytes = e.bytes))
    ∧ (e.bytes.take s.len ≠ s.as_bytes →
        s.cmp_id e = byteListCmp s.as_bytes (e.bytes.take s.len)) := by
  have hab : s.as_bytes.length = s.len := by
    simp [ShortId.as_bytes]
    omega
  refine ⟨?_, ?_, ?_⟩
  · intro hpre hklt
    have hsplit : e.bytes = s.as_bytes ++ e.bytes.drop s.len := by
      conv_lhs => rw [← List.take_append_drop s.len e.bytes]
      rw [hpre]
    have hdlen : (e.bytes.drop s.len).length = 20 - s.len := by
      simp [List.length_drop, he]
    cases hd : e.bytes.drop s.len with
    | nil => rw [hd] at hdlen; simp at hdlen; omega
    | cons x t =>
      unfold ShortId.cmp_id
      rw [hsplit, hd]
      exact byteListCmp_prefix_lt _ _ _
  · unfold ShortId.cmp_id
    rw [byteListCmp_eq_iff]
    constructor
    · intro h
      have : s.len = 20 := by
        have := congrArg List.length h
        rw [hab, he] at this
        exact this
      exact ⟨this, h⟩
    · exact fun h => h.2
  · intro hne
    have := byteListCmp_take_of_ne s.as_bytes e.bytes (by omega) (by rw [hab]; exact hne)
    unfold ShortId.cmp_id
    rw [this, hab]

theorem drop_add (l : Bytes) (p k : Nat) : l.drop (p + k) = (l.drop p).drop k := by
  rw [List.drop_drop, Nat.add_comm]

theorem drop_append_len (l₁ l₂ : Bytes) : (l₁ ++ l₂).drop l₁.length = l₂ :=
  List.drop_left l₁ l₂

theorem drop_append_cons_len (l₁ : Bytes) (x : Nat) (l₂ : Bytes) :
    (l₁ ++ x :: l₂).drop (l₁.length + 1) = l₂ := by
  rw [drop_add, drop_append_len]
  rfl

theorem take_append_len (l₁ l₂ : Bytes) : (l₁ ++ l₂).take l₁.length = l₁ :=
  List.take_left l₁ l₂

theorem consume_bytes_pos (buffer : Bytes) (pos : Nat) (bs rest : Bytes)
    (h : buffer.drop pos = bs ++ rest) :
    Parser.consume_bytes ⟨buffer, pos⟩ bs = (true, ⟨buffer, pos + bs.length⟩) := by
  unfold Parser.consume_bytes Parser.remaining_buffer
  simp only [h]
  rw [if_pos]
  rw [List.isPrefixOf_iff_prefix]
  exact List.prefix_append bs rest

theorem consume_bytes_neg (buffer : Bytes) (pos : Nat) (bs : Bytes)
    (h : bs.isPrefixOf (buffer.drop pos) = false) :
    Parser.consume_bytes ⟨buffer, pos⟩ bs = (false, ⟨buffer, pos⟩) := by
  unfold Parser.consume_bytes Parser.remaining_buffer
  simp [h]

theorem remaining_pos (buffer : Bytes) (pos : Nat) (r : Bytes)
    (h : buffer.drop pos = r) : Parser.remaining ⟨buffer, pos⟩ = r.length := by
  unfold Parser.remaining
  rw [← List.length_drop, h]

theorem advance_pos (buffer : Bytes) (pos n : Nat) (r : Bytes)
    (h : buffer.drop pos = r) (hn : n ≤ r.length) :
    Parser.advance ⟨buffer, pos⟩ n = (true, ⟨buffer, pos + n⟩) := by
  unfold Parser.advance
  rw [remaining_pos buffer pos r h, if_neg (by omega)]

theorem consume_until_pos (buffer : Bytes) (pos : Nat) (ch : Nat) (pre rest : Bytes)
    (h : buffer.drop pos = pre ++ ch :: rest) (hpre : pre.contains ch = false) :
    Parser.consume_until ⟨buffer, pos⟩ ch =
      some ((pos, pos + pre.length), ⟨buffer, pos + pre.length + 1⟩) := by
  unfold Parser.consume_until Parser.remaining_buffer
  simp only [h]
  rw [findIdx?_first_true (fun b => b == ch) pre ch rest ?_ (by simp)]
  · simp
  · intro b hb
    simp only [List.contains] at hpre
    by_contra hbc
    simp only [Bool.not_eq_false] at hbc
    have : b = ch := by simpa using hbc
    subst this
    rw [List.elem_eq_true_of_mem hb] at hpre
    exact Bool.false_ne_true hpre.symm

theorem idFromHexOk_length (t : Bytes) (h : idFromHexOk t = true) : t.length = 40 := by
  unfold idFromHexOk at h
  simp at h
  exact h.1

theorem parse_hex_id_line_some (buffer : Bytes) (pos : Nat) (pre t rest : Bytes)
    (ht : idFromHexOk t = true)
    (h : buffer.drop pos = pre ++ (t ++ 10 :: rest)) :
    Parser.parse_hex_id_line ⟨buffer, pos⟩ pre =
      Except.ok (some (pos + pre.length), ⟨buffer, pos + pre.length + 41⟩) := by
  have ht40 : t.length = 40 := idFromHexOk_length t ht
  have h1 : buffer.drop (pos + pre.length) = t ++ 10 :: rest := by
    rw [drop_add, h, drop_append_len]
  have h2 : buffer.drop (pos + pre.length + 40) = 10 :: rest := by
    rw [drop_add, h1, ← ht40, drop_append_len]
  unfold Parser.parse_hex_id_line
  rw [consume_bytes_pos buffer pos pre (t ++ 10 :: rest) h]
  dsimp only []
  rw [advance_pos buffer (pos + pre.length) 40 (t ++ 10 :: rest) h1 (by simp; omega)]
  dsimp only []
  rw [consume_bytes_pos buffer (pos + pre.length + 40) [10] rest (by simpa using h2)]
  dsimp only []
  have hslice : ((buffer.drop (pos + pre.length)).take 40) = t := by
    rw [h1, ← ht40, take_append_len]
  rw [hslice, if_pos ht]
  have harith : pos + pre.length + 40 + List.length [10] = pos + pre.length + 41 := by
    simp
  rw [harith]

theorem parse_hex_id_line_none (buffer : Bytes) (pos : Nat) (pre : Bytes)
    (h : pre.isPrefixOf (buffer.drop pos) = false) :
    Parser.parse_hex_id_line ⟨buffer, pos⟩ pre = Except.ok (none, ⟨buffer, pos⟩) := by
  unfold Parser.parse_hex_id_line
  rw [consume_bytes_neg buffer pos pre h]

theorem parse_line_some (buffer : Bytes) (pos : Nat) (pre a rest : Bytes)
    (hnl : a.contains 10 = false)
    (h : buffer.drop pos = pre ++ (a ++ 10 :: rest)) :
    Parser.parse_line ⟨buffer, pos⟩ pre =
      Except.ok (some (pos + pre.length, pos + pre.length + a.length),
        ⟨buffer, pos + pre.length + a.length + 1⟩) := by
  have h1 : buffer.drop (pos + pre.length) = a ++ 10 :: rest := by
    rw [drop_add, h, drop_append_len]
  unfold Parser.parse_line
  rw [consume_bytes_pos buffer pos pre (a ++ 10 :: rest) h]
  dsimp only []
  rw [consume_until_pos buffer (pos + pre.length) 10 a rest h1 hnl]

theorem parse_signature_some (buffer : Bytes) (pos : Nat) (pre a rest : Bytes)
    (hnl : a.contains 10 = false) (hv : sigValid a = true)
    (h : buffer.drop pos = pre ++ (a ++ 10 :: rest)) :
    Parser.parse_signature ⟨buffer, pos⟩ pre =
      Except.ok (some (pos + pre.length, pos + pre.length + a.length),
        ⟨buffer, pos + pre.length + a.length + 1⟩) := by
  have h1 : buffer.drop (pos + pre.length) = a ++ 10 :: rest := by
    rw [drop_add, h, drop_append_len]
  unfold Parser.parse_signature
  rw [parse_line_some buffer pos pre a rest hnl h]
  have hslice : Parser.slice ⟨buffer, pos + pre.length + a.length + 1⟩
      (pos + pre.length, pos + pre.length + a.length) = a := by
    unfold Parser.slice
    simp only []
    rw [show pos + pre.length + a.length - (pos + pre.length) = a.length by omega]
    rw [h1, take_append_len]
  simp only [hslice, hv, if_pos]

theorem parse_signature_none (buffer : Bytes) (pos : Nat) (pre : Bytes)
    (h : pre.isPrefixOf (buffer.drop pos) = false) :
    Parser.parse_signature ⟨buffer, pos⟩ pre = Except.ok (none, ⟨buffer, pos⟩) := by
  unfold Parser.parse_signature Parser.parse_line
  rw [consume_bytes_neg buffer pos pre h]

theorem parentPrefix_not_author (l : Bytes) :
    parentPrefix.isPrefixOf (authorPrefix ++ l) = false := by
  simp [parentPrefix, authorPrefix, List.isPrefixOf]

theorem authorPrefix_not_committer (l : Bytes) :
    authorPrefix.isPrefixOf (committerPrefix ++ l) = false := by
  simp [authorPrefix, committerPrefix, List.isPrefixOf]

theorem parentsLoop_complete :
    ∀ (parents : List Bytes) (fuel : Nat) (buffer : Bytes) (pos : Nat)
      (acc : List Nat) (rest : Bytes),
      parents.length < fuel →
      (∀ p ∈ parents, idFromHexOk p = true) →
      buffer.drop pos = (parents.map (fun p => parentPrefix ++ p ++ [10])).flatten ++ rest →
      parentPrefix.isPrefixOf rest = false →
      ∃ offs : List Nat,
        parentsLoop fuel ⟨buffer, pos⟩ acc =
          Except.ok (acc ++ offs, ⟨buffer, pos + 48 * parents.length⟩)
        ∧ offs.length = parents.length := by
  intro parents
  induction parents with
  | nil =>
    intro fuel buffer pos acc rest hfuel _ h hrest
    cases fuel with
    | zero => omega
    | succ f =>
      refine ⟨[], ?_, rfl⟩
      simp only [List.map_nil, List.flatten_nil, List.nil_append] at h
      unfold parentsLoop
      rw [parse_hex_id_line_none buffer pos parentPrefix (by rw [h]; exact hrest)]
      simp
  | cons p ps ih =>
    intro fuel buffer pos acc rest hfuel hp h hrest
    cases fuel with
    | zero => omega
    | succ f =>
      have hp0 : idFromHexOk p = true := hp p (by simp)
      have hp40 : p.length = 40 := idFromHexOk_length p hp0
      have hshape : buffer.drop pos =
          parentPrefix ++ (p ++ 10 :: ((ps.map (fun q => parentPrefix ++ q ++ [10])).flatten ++ rest)) := by
        rw [h]
        simp [List.append_assoc]
      have hnext : buffer.drop (pos + 48) =
          (ps.map (fun q => parentPrefix ++ q ++ [10])).flatten ++ rest := by
        rw [drop_add, hshape]
        rw [show (48 : Nat) = parentPrefix.length + (p.length + 1) by
          simp [parentPrefix, hp40]]
        rw [drop_add _ parentPrefix.length (p.length + 1), drop_append_len,
            drop_append_cons_len]
      obtain ⟨offs, hrun, hlen⟩ :=
        ih f buffer (pos + 48) (acc ++ [pos + parentPrefix.length]) rest
          (by simpa using hfuel) (fun q hq => hp q (by simp [hq])) hnext hrest
      refine ⟨(pos + parentPrefix.length) :: offs, ?_, by simp [hlen]⟩
      unfold parentsLoop
      rw [parse_hex_id_line_some buffer pos parentPrefix p _ hp0 hshape]
      dsimp only []
      rw [show pos + parentPrefix.length + 41 = pos + 48 by simp [parentPrefix]]
      rw [hrun]
      have : acc ++ [pos + parentPrefix.length] ++ offs =
          acc ++ (pos + parentPrefix.length) :: offs := by simp
      rw [this]
      have : pos + 48 + 48 * ps.length = pos + 48 * (ps.length + 1) := by ring
      rw [this]
      simp

theorem extraAuthorsLoop_complete :
    ∀ (extras : List Bytes) (fuel : Nat) (buffer : Bytes) (pos : Nat) (rest : Bytes),
      extras.length < fuel →
      (∀ a ∈ extras, sigLineOk a) →
      buffer.drop pos = (extras.map (fun a => authorPrefix ++ a ++ [10])).flatten ++ rest →
      authorPrefix.isPrefixOf rest = false →
      extraAuthorsLoop fuel ⟨buffer, pos⟩ =
        Except.ok ⟨buffer, pos + ((extras.map (fun a => a.length + 8)).sum)⟩ := by
  intro extras
  induction extras with
  | nil =>
    intro fuel buffer pos rest hfuel _ h hrest
    cases fuel with
    | zero => omega
    | succ f =>
      simp only [List.map_nil, List.flatten_nil, List.nil_append] at h
      unfold extraAuthorsLoop
      rw [parse_signature_none buffer pos authorPrefix (by rw [h]; exact hrest)]
      simp
  | cons a as ih =>
    intro fuel buffer pos rest hfuel ha h hrest
    cases fuel with
    | zero => omega
    | succ f =>
      have ha0 : sigLineOk a := ha a (by simp)
      have hshape : buffer.drop pos =
          authorPrefix ++ (a ++ 10 :: ((as.map (fun q => authorPrefix ++ q ++ [10])).flatten ++ rest)) := by
        rw [h]
        simp [List.append_assoc]
      have hnext : buffer.drop (pos + (a.length + 8)) =
          (as.map (fun q => authorPrefix ++ q ++ [10])).flatten ++ rest := by
        rw [drop_add buffer pos (a.length + 8), hshape]
        rw [show a.length + 8 = authorPrefix.length + (a.length + 1) by
          simp [authorPrefix]; omega]
        rw [drop_add _ authorPrefix.length (a.length + 1), drop_append_len,
            drop_append_cons_len]
      have hrun := ih f buffer (pos + (a.length + 8)) rest
        (by simpa using hfuel) (fun q hq => ha q (by simp [hq])) hnext hrest
      unfold extraAuthorsLoop
      rw [parse_signature_some buffer pos authorPrefix a _ ha0.1 ha0.2 hshape]
      dsimp only []
      rw [show pos + authorPrefix.length + a.length + 1 = pos + (a.length + 8) by
        simp [authorPrefix]; omega]
      rw [hrun]
      have : pos + (a.length + 8) + (as.map (fun q => q.length + 8)).sum =
          pos + ((a.length + 8) + (as.map (fun q => q.length + 8)).sum) := by omega
      rw [this]
      simp

theorem headersLoop_exit (fuel : Nat) (buffer : Bytes) (pos : Nat) (rest : Bytes)
    (enc : Option (Nat × Nat)) (hfuel : 0 < fuel)
    (h : buffer.drop pos = 10 :: rest) :
    headersLoop fuel ⟨buffer, pos⟩ enc = Except.ok (enc, ⟨buffer, pos + 1⟩) := by
  cases fuel with
  | zero => omega
  | succ f =>
    unfold headersLoop
    rw [consume_bytes_pos buffer pos [10] rest (by simpa using h)]
    dsimp only []
    simp

theorem flatten_map_length_const (f : Bytes → Bytes) (l : List Bytes) (k : Nat)
    (h : ∀ x ∈ l, (f x).length = k) : ((l.map f).flatten).length = k * l.length := by
  induction l with
  | nil => simp
  | cons x xs ih =>
    simp only [List.map_cons, List.flatten_cons, List.length_append]
    rw [h x (by simp), ih (fun y hy => h y (by simp [hy]))]
    rw [List.length_cons, Nat.mul_succ]
    omega

theorem authors_flatten_length (l : List Bytes) :
    ((l.map (fun a => authorPrefix ++ a ++ [10])).flatten).length
      = (l.map (fun a => a.length + 8)).sum := by
  induction l with
  | nil => simp
  | cons a as ih =>
    simp only [List.map_cons, List.flatten_cons, List.length_append, List.sum_cons]
    rw [ih]
    simp [authorPrefix]
    omega

theorem length_le_sum_authors (l : List Bytes) :
    l.length ≤ (l.map (fun a => a.length + 8)).sum := by
  induction l with
  | nil => simp
  | cons a as ih =>
    simp only [List.length_cons, List.map_cons, List.sum_cons]
    omega

/-- Claim C8: a commit body with a mandatory tree line, any number of
parent lines, two or more consecutive valid author lines and a committer
line (followed by the terminating empty line and the message) parses
successfully; the `author` range records the *first* author line, the
extra author lines are consumed and discarded, and the committer,
message and parent count are unaffected by them. -/
theorem commit_parse_first_author_wins
    (t : Bytes) (parents : List Bytes) (a1 : Bytes) (extras : List Bytes)
    (c msg : Bytes)
    (ht : idFromHexOk t = true)
    (hp : ∀ p ∈ parents, idFromHexOk p = true)
    (ha1 : sigLineOk a1)
    (hex : ∀ a ∈ extras, sigLineOk a)
    (hc : sigLineOk c)
    (_hne : extras ≠ []) :
    ∃ cm, Commit.parse (commitBody t parents a1 extras c msg) = Except.ok cm
      ∧ cm.authorBytes = a1
      ∧ cm.committerBytes = c
      ∧ cm.messageBytes = msg
      ∧ cm.parents.length = parents.length := by
  have ht40 : t.length = 40 := idFromHexOk_length t ht
  set P := (parents.map (fun p => parentPrefix ++ p ++ [10])).flatten with hP
  set E := (extras.map (fun a => authorPrefix ++ a ++ [10])).flatten with hE
  set rest3 : Bytes := committerPrefix ++ (c ++ 10 :: (10 :: msg)) with hrest3
  set rest2 : Bytes := E ++ rest3 with hrest2
  set rest1 : Bytes := authorPrefix ++ (a1 ++ 10 :: rest2) with hrest1
  set body := commitBody t parents a1 extras c msg with hbody
  have e0 : body = treePrefix ++ (t ++ 10 :: (P ++ rest1)) := by
    rw [hbody, hrest1, hrest2, hrest3, hP, hE]
    simp [commitBody, List.append_assoc]
  have hPlen : P.length = 48 * parents.length := by
    rw [hP]
    apply flatten_map_length_const
    intro p hpmem
    have := idFromHexOk_length p (hp p hpmem)
    simp [parentPrefix, this]
  -- the tree line
  have e1 : body.drop 0 = treePrefix ++ (t ++ 10 :: (P ++ rest1)) := by
    simpa using e0
  -- position after the tree line
  have hd46 : body.drop (0 + treePrefix.length + 41) = P ++ rest1 := by
    rw [show (0 : Nat) + treePrefix.length + 41 = treePrefix.length + (t.length + 1) by omega]
    rw [e0, drop_add _ treePrefix.length (t.length + 1), drop_append_len, drop_append_cons_len]
  -- the parents loop
  have hfuelP : parents.length < body.length + 1 := by
    have : (body.drop (0 + treePrefix.length + 41)).length ≤ body.length := by
      simp
    rw [hd46] at this
    simp only [List.length_append, hPlen] at this
    omega
  obtain ⟨offs, hrun, hoffs⟩ := parentsLoop_complete parents (body.length + 1) body
    (0 + treePrefix.length + 41) [] rest1 hfuelP hp hd46
    (by rw [hrest1]; exact parentPrefix_not_author _)
  -- the author line
  have hd2 : body.drop (0 + treePrefix.length + 41 + 48 * parents.length) =
      authorPrefix ++ (a1 ++ 10 :: rest2) := by
    rw [drop_add, hd46, ← hPlen, drop_append_len, hrest1]
  -- the extra-author loop
  have hd3 : body.drop (0 + treePrefix.length + 41 + 48 * parents.length
      + authorPrefix.length + a1.length + 1) = E ++ rest3 := by
    rw [show (0 : Nat) + treePrefix.length + 41 + 48 * parents.length
        + authorPrefix.length + a1.length + 1
        = (0 + treePrefix.length + 41 + 48 * parents.length)
          + (authorPrefix.length + (a1.length + 1)) by omega]
    rw [drop_add, hd2, drop_add _ authorPrefix.length (a1.length + 1), drop_append_len,
        drop_append_cons_len, hrest2]
  have hElen : E.length = ((extras.map (fun a => a.length + 8)).sum) := by
    rw [hE]
    exact authors_flatten_length extras
  have hfuelE : extras.length < body.length + 1 := by
    have h1 : (body.drop (0 + treePrefix.length + 41 + 48 * parents.length
        + authorPrefix.length + a1.length + 1)).length ≤ body.length := by simp
    rw [hd3] at h1
    simp only [List.length_append] at h1
    have h2 : extras.length ≤ E.length := by
      rw [hElen]
      exact length_le_sum_authors extras
    omega
  have hrunE := extraAuthorsLoop_complete extras (body.length + 1) body
    (0 + treePrefix.length + 41 + 48 * parents.length + authorPrefix.length + a1.length + 1)
    rest3 hfuelE hex hd3 (by rw [hrest3]; exact authorPrefix_not_committer _)
  -- the committer line
  have hd4 : body.drop (0 + treePrefix.length + 41 + 48 * parents.length
      + authorPrefix.length + a1.length + 1 + (extras.map (fun a => a.length + 8)).sum) =
      committerPrefix ++ (c ++ 10 :: (10 :: msg)) := by
    rw [drop_add, hd3, ← hElen, drop_append_len, hrest3]
  -- the empty line
  have hd5 : body.drop (0 + treePrefix.length + 41 + 48 * parents.length
      + authorPrefix.length + a1.length + 1 + (extras.map (fun a => a.length + 8)).sum
      + committerPrefix.length + c.length + 1) = 10 :: msg := by
    rw [show (0 : Nat) + treePrefix.length + 41 + 48 * parents.length
        + authorPrefix.length + a1.length + 1 + (extras.map (fun a => a.length + 8)).sum
        + committerPrefix.length + c.length + 1
        = (0 + treePrefix.length + 41 + 48 * parents.length
          + authorPrefix.length + a1.length + 1 + (extras.map (fun a => a.length + 8)).sum)
          + (committerPrefix.length + (c.length + 1)) by omega]
    rw [drop_add, hd4, drop_add _ committerPrefix.length (c.length + 1), drop_append_len,
        drop_append_cons_len]
  -- assemble
  refine ⟨{ data := body,
            tree := 0 + treePrefix.length,
            parents := [] ++ offs,
            author := (0 + treePrefix.length + 41 + 48 * parents.length + authorPrefix.length,
              0 + treePrefix.length + 41 + 48 * parents.length + authorPrefix.length
                + a1.length),
            committer := (0 + treePrefix.length + 41 + 48 * parents.length
                + authorPrefix.length + a1.length + 1
                + (extras.map (fun a => a.length + 8)).sum + committerPrefix.length,
              0 + treePrefix.length + 41 + 48 * parents.length + authorPrefix.length
                + a1.length + 1 + (extras.map (fun a => a.length + 8)).sum
                + committerPrefix.length + c.length),
            encoding := none,
            message := 0 + treePrefix.length + 41 + 48 * parents.length
              + authorPrefix.length + a1.length + 1 + (extras.map (fun a => a.length + 8)).sum
              + committerPrefix.length + c.length + 1 + 1 }, ?_, ?_, ?_, ?_, ?_⟩
  case _ =>
    unfold Commit.parse
    rw [show Parser.new body = ⟨body, 0⟩ from rfl]
    rw [parse_hex_id_line_some body 0 treePrefix t (P ++ rest1) ht e1]
    dsimp only []
    rw [hrun]
    dsimp only []
    rw [parse_signature_some body _ authorPrefix a1 rest2 ha1.1 ha1.2 hd2]
    dsimp only []
    rw [show (0 + treePrefix.length + 41 + 48 * parents.length) + authorPrefix.length
        + a1.length + 1
        = 0 + treePrefix.length + 41 + 48 * parents.length + authorPrefix.length
          + a1.length + 1 by omega]
    rw [hrunE]
    dsimp only []
    rw [parse_signature_some body _ committerPrefix c (10 :: msg) hc.1 hc.2 hd4]
    dsimp only []
    rw [show (0 + treePrefix.length + 41 + 48 * parents.length + authorPrefix.length
        + a1.length + 1 + (extras.map (fun a => a.length + 8)).sum) + committerPrefix.length
        + c.length + 1
        = 0 + treePrefix.length + 41 + 48 * parents.length + authorPrefix.length
          + a1.length + 1 + (extras.map (fun a => a.length + 8)).sum
          + committerPrefix.length + c.length + 1 by omega]
    rw [headersLoop_exit (body.length + 1) body _ msg none (by omega) hd5]
  case _ =>
    unfold Commit.authorBytes
    dsimp only []
    rw [show (0 + treePrefix.length + 41 + 48 * parents.length) + authorPrefix.length
        + a1.length - ((0 + treePrefix.length + 41 + 48 * parents.length)
        + authorPrefix.length) = a1.length by omega]
    have : body.drop ((0 + treePrefix.length + 41 + 48 * parents.length)
        + authorPrefix.length) = a1 ++ 10 :: rest2 := by
      rw [drop_add, hd2, drop_append_len]
    rw [this, take_append_len]
  case _ =>
    unfold Commit.committerBytes
    dsimp only []
    rw [show (0 + treePrefix.length + 41 + 48 * parents.length + authorPrefix.length
        + a1.length + 1 + (extras.map (fun a => a.length + 8)).sum) + committerPrefix.length
        + c.length - ((0 + treePrefix.length + 41 + 48 * parents.length
        + authorPrefix.length + a1.length + 1 + (extras.map (fun a => a.length + 8)).sum)
        + committerPrefix.length) = c.length by omega]
    have : body.drop ((0 + treePrefix.length + 41 + 48 * parents.length
        + authorPrefix.length + a1.length + 1 + (extras.map (fun a => a.length + 8)).sum)
        + committerPrefix.length) = c ++ 10 :: (10 :: msg) := by
      rw [drop_add, hd4, drop_append_len]
    rw [this, take_append_len]
  case _ =>
    unfold Commit.messageBytes
    dsimp only []
    rw [show (0 + treePrefix.length + 41 + 48 * parents.length + authorPrefix.length
        + a1.length + 1 + (extras.map (fun a => a.length + 8)).sum + committerPrefix.length
        + c.length + 1) + 1
        = (0 + treePrefix.length + 41 + 48 * parents.length + authorPrefix.length
          + a1.length + 1 + (extras.map (fun a => a.length + 8)).sum + committerPrefix.length
          + c.length + 1) + 1 by omega]
    rw [drop_add, hd5]
    rfl
  case _ =>
    simpa using hoffs

theorem read_delta_offset_unbiased_witness :
    (([129] : Bytes).length + 1 ≤ 10
      ∧ (∀ b ∈ ([129] : Bytes), b &&& 128 ≠ 0)
      ∧ 127 &&& 128 = 0)
    ∧ Pack.read_delta_offset ([129] ++ 127 :: []) =
        Except.ok (Pack.unbiasedDeltaOffset ([129] ++ [127])) :=
  ⟨⟨by decide, by decide, by decide⟩,
   read_delta_offset_unbiased [129] 127 [] (by decide) (by decide) (by decide)⟩

theorem cmp_id_lexicographic_witness :
    (cde2Short.id.length = 20 ∧ cde2Short.len ≤ 20 ∧ cde20Id.bytes.length = 20)
    ∧ ((cde20Id.bytes.take cde2Short.len = cde2Short.as_bytes → cde2Short.len < 20 →
          cde2Short.cmp_id cde20Id = Ordering.lt)
      ∧ (cde2Short.cmp_id cde20Id = Ordering.eq ↔
          (cde2Short.len = 20 ∧ cde2Short.as_bytes = cde20Id.bytes))
      ∧ (cde20Id.bytes.take cde2Short.len ≠ cde2Short.as_bytes →
          cde2Short.cmp_id cde20Id =
            byteListCmp cde2Short.as_bytes (cde20Id.bytes.take cde2Short.len))) :=
  ⟨⟨by decide, by decide, by decide⟩,
   cmp_id_lexicographic cde2Short cde20Id (by decide) (by decide) (by decide)⟩

theorem commit_parse_first_author_wins_witness :
    (idFromHexOk (List.replicate 40 48) = true
      ∧ (∀ p ∈ ([] : List Bytes), idFromHexOk p = true)
      ∧ sigLineOk [65, 32, 60, 97, 62]
      ∧ (∀ a ∈ ([[66, 32, 60, 98, 62]] : List Bytes), sigLineOk a)
      ∧ sigLineOk [67, 32, 60, 99, 62]
      ∧ ([[66, 32, 60, 98, 62]] : List Bytes) ≠ [])
    ∧ ∃ cm, Commit.parse (commitBody (List.replicate 40 48) [] [65, 32, 60, 97, 62]
          [[66, 32, 60, 98, 62]] [67, 32, 60, 99, 62] [104, 105]) = Except.ok cm
        ∧ cm.authorBytes = [65, 32, 60, 97, 62]
        ∧ cm.committerBytes = [67, 32, 60, 99, 62]
        ∧ cm.messageBytes = [104, 105]
        ∧ cm.parents.length = ([] : List Bytes).length :=
  ⟨⟨by decide, by decide, ⟨by decide, by decide⟩,
    fun a ha => by
      rw [List.mem_singleton] at ha
      subst ha
      exact ⟨by decide, by decide⟩,
    ⟨by decide, by decide⟩, by decide⟩,
   commit_parse_first_author_wins (List.replicate 40 48) [] [65, 32, 60, 97, 62]
     [[66, 32, 60, 98, 62]] [67, 32, 60, 99, 62] [104, 105]
     (by decide) (by decide) ⟨by decide, by decide⟩
     (fun a ha => by
       rw [List.mem_singleton] at ha
       subst ha
       exact ⟨by decide, by decide⟩)
     ⟨by decide, by decide⟩ (by decide)⟩

end RustyGit
